import Mathlib

/-!
Verification model of the KawulaSQL Storage_Manager core.

Python `bytes`/`bytearray` values are modelled as `List Nat` (each
element < 256).  Strings flowing through the record serializer are
modelled as their utf-8 byte lists.  Schema attribute names/dtypes and
condition operands, where Python's distinction between character count
and byte count or Unicode character classes matters, are modelled as
code-point lists, with utf-8 encoding (`utf8Encode`/`utf8Decode`)
applied exactly where the Python code encodes or decodes.
Fallible Python code (raised exceptions) is modelled with `Option` or
`Except`.  Machine integers are `Int`/`Nat` with explicit range checks
where Python's `int.to_bytes`/`struct.pack` raise `OverflowError`.

Each definition is a shallow embedding of the correspondingly named
function of the repository (file and line references in the doc strings).
-/

namespace StorageSpec

/-- Python `n.to_bytes(k, byteorder='little')` byte list for a natural
number, without the range check (the check lives in `toBytesLE`). -/
def natBytesLE : Nat → Nat → List Nat
  | 0, _ => []
  | k + 1, n => n % 256 :: natBytesLE k (n / 256)

/-- Big-endian variant (Python `byteorder='big'`). -/
def natBytesBE (k n : Nat) : List Nat :=
  (natBytesLE k n).reverse

/-- Python `int.to_bytes(k, byteorder='little', signed=s)`:
`none` models the `OverflowError` on out-of-range input. -/
def toBytesLE (k : Nat) (n : Int) (signed : Bool) : Option (List Nat) :=
  if signed then
    if -(2 ^ (8 * k - 1) : Int) ≤ n ∧ n < (2 ^ (8 * k - 1) : Int) then
      some (natBytesLE k (n % (2 ^ (8 * k) : Int)).toNat)
    else none
  else
    if 0 ≤ n ∧ n < (2 ^ (8 * k) : Int) then some (natBytesLE k n.toNat) else none

/-- Unsigned little-endian value of a byte list. -/
def natFromBytesLE : List Nat → Nat
  | [] => 0
  | b :: bs => b + 256 * natFromBytesLE bs

/-- Python `int.from_bytes(bs, byteorder='little', signed=s)`.  Python
accepts byte strings of any length (slices may be shorter than
requested), so the length is taken from the list itself. -/
def fromBytesLE (bs : List Nat) (signed : Bool) : Int :=
  let u := natFromBytesLE bs
  if signed ∧ 2 ^ (8 * bs.length - 1) ≤ u then
    (u : Int) - (2 ^ (8 * bs.length) : Int)
  else (u : Int)

/-- Typed Python values crossing the serializer: `int`, the bit pattern of
a `float32` (the `struct.unpack('<I', struct.pack('<f', x))` value), and
strings (as utf-8 byte lists). -/
inductive Value where
  | vint (i : Int)
  | vfloat (bits : Nat)
  | vstr (s : List Nat)
deriving DecidableEq

/-- The four dtype strings as code-point lists (all ASCII, so equal to
their utf-8 byte lists): "int". -/
def dtInt : List Nat := [105, 110, 116]

/-- "float" -/
def dtFloat : List Nat := [102, 108, 111, 97, 116]

/-- "char" -/
def dtChar : List Nat := [99, 104, 97, 114]

/-- "varchar" -/
def dtVarchar : List Nat := [118, 97, 114, 99, 104, 97, 114]

/-- A schema attribute `(name, dtype, size)` (lib/attribute.py,
lib/schema.py metadata triples).  `name` and `dtype` are Python strings
as code-point lists (for the ASCII dtype literals this coincides with
the utf-8 byte list). -/
structure PyAttr where
  name : List Nat
  dtype : List Nat
  size : Nat
deriving DecidableEq

/-- `DtypeEncoder.encodeInt` (lib/RecordSerializer.py:15). -/
def encodeInt (num : Int) (k : Nat) (signed : Bool) : Option (List Nat) :=
  toBytesLE k num signed

/-- `DtypeEncoder.decodeInt` (lib/RecordSerializer.py:26): reads the slice
`byte_data[offset : offset+k]` and returns the value with the new offset. -/
def decodeInt (byteData : List Nat) (offset k : Nat) (signed : Bool) : Int × Nat :=
  (fromBytesLE ((byteData.drop offset).take k) signed, offset + k)

/-- `DtypeEncoder.encodeFloat` (lib/RecordSerializer.py:39): the unsigned
32-bit IEEE bit pattern is passed to `encodeInt(_, 4, signed=True)`, which
raises `OverflowError` when the sign bit is set (bits ≥ 2^31). -/
def encodeFloat (bits : Nat) : Option (List Nat) :=
  encodeInt (bits : Int) 4 true

/-- `DtypeEncoder.decodeFloat` (lib/RecordSerializer.py:49): a signed
4-byte read, then `struct.pack('<I', int_rep)`, which raises
`struct.error` on a negative value. -/
def decodeFloat (byteData : List Nat) (offset : Nat) : Option (Nat × Nat) :=
  let p := decodeInt byteData offset 4 true
  if p.1 < 0 then none else some (p.1.toNat, p.2)

/-- `DtypeEncoder.encodeChar` (lib/RecordSerializer.py:60):
`char.encode('utf-8').ljust(size, b'\x00')` (no truncation). -/
def encodeChar (s : List Nat) (size : Nat) : List Nat :=
  s ++ List.replicate (size - s.length) 0

/-- Python `str.rstrip('\x00')`. -/
def rstrip0 (s : List Nat) : List Nat :=
  (s.reverse.dropWhile (fun b => b = 0)).reverse

/-- `DtypeEncoder.decodeChar` (lib/RecordSerializer.py:71): read `size`
bytes, strip trailing NUL bytes. -/
def decodeChar (byteData : List Nat) (offset size : Nat) : List Nat × Nat :=
  (rstrip0 ((byteData.drop offset).take size), offset + size)

/-- `DtypeEncoder.encodeVarChar` (lib/RecordSerializer.py:83): strip one
surrounding pair of single quotes (byte 39) when both ends carry one
(`char[0] == "'" == char[-1]`; for the one-byte string consisting of a
single quote Python strips it to the empty string, which `drop 1` +
`dropLast` also yields); `none` models the `IndexError` on an empty
string, the `ValueError` when the stripped length exceeds `max_size`,
and the `OverflowError` of the 2-byte length prefix. -/
def encodeVarChar (s : List Nat) (maxSize : Nat) : Option (List Nat) :=
  match s with
  | [] => none
  | a :: rest =>
    let stripped :=
      if a = 39 ∧ (a :: rest).getLastD 0 = 39 then ((a :: rest).drop 1).dropLast
      else a :: rest
    if stripped.length > maxSize then none
    else (toBytesLE 2 (stripped.length : Int) false).map (fun lb => lb ++ stripped)

/-- `DtypeEncoder.decodeVarChar` (lib/RecordSerializer.py:101): read a
2-byte length, then the payload, and surface it wrapped in single quotes
(the `f"'{value}'"` on line 111). -/
def decodeVarChar (byteData : List Nat) (offset : Nat) : List Nat × Nat :=
  let len := (fromBytesLE ((byteData.drop offset).take 2) false).toNat
  let v := (byteData.drop (offset + 2)).take len
  (39 :: (v ++ [39]), offset + 2 + len)

/-- One field of `RecordSerializer.serialize` (lib/RecordSerializer.py:158):
the branch on the attribute dtype.  The Python coercions `int(value)` /
`float(value)` applied to a value of the wrong runtime type are modelled
as failures (`none`), as are the `assert` statements and the final
`ValueError` for an unsupported dtype. -/
def serializeField (v : Value) (dtype : List Nat) (size : Nat) : Option (List Nat) :=
  if dtype = dtInt then
    match v with
    | .vint i => encodeInt i size true
    | _ => none
  else if dtype = dtFloat then
    match v with
    | .vfloat b => encodeFloat b
    | _ => none
  else if dtype = dtChar then
    match v with
    | .vstr s => if s.length = 1 then some (encodeChar s size) else none
    | _ => none
  else if dtype = dtVarchar then
    match v with
    | .vstr s => if s.length ≤ size then encodeVarChar s size else none
    | _ => none
  else none

/-- The `for value, (...) in zip(record, self.schema)` loop of
`RecordSerializer.serialize` (lib/RecordSerializer.py:158): `zip` stops at
the shorter of the two lists, so no field-count check happens. -/
def serializeFields : List Value → List PyAttr → Option (List Nat)
  | _, [] => some []
  | [], _ :: _ => some []
  | v :: vs, a :: attrs => do
    let f ← serializeField v a.dtype a.size
    let r ← serializeFields vs attrs
    pure (f ++ r)

/-- `RecordSerializer.serialize` (lib/RecordSerializer.py:149): frame the
concatenated fields as `'R' 'C' fields 0xCC`. -/
def serialize (record : List Value) (schema : List PyAttr) : Option (List Nat) :=
  (serializeFields record schema).map (fun bs => 82 :: 67 :: (bs ++ [204]))

/-- One field of `RecordSerializer.deserialize` (lib/RecordSerializer.py:191):
the per-dtype branch reading at `offset`. -/
def decodeFieldAt (byteData : List Nat) (offset : Nat) (a : PyAttr) : Option (Value × Nat) :=
  if a.dtype = dtInt then
    let p := decodeInt byteData offset a.size true
    some (.vint p.1, p.2)
  else if a.dtype = dtFloat then
    (decodeFloat byteData offset).map (fun p => (.vfloat p.1, p.2))
  else if a.dtype = dtChar then
    let p := decodeChar byteData offset a.size
    some (.vstr p.1, p.2)
  else if a.dtype = dtVarchar then
    let p := decodeVarChar byteData offset
    some (.vstr p.1, p.2)
  else none

/-- The schema walk of `RecordSerializer.deserialize`
(lib/RecordSerializer.py:191), threading the offset. -/
def deserializeFields (byteData : List Nat) (offset : Nat) :
    List PyAttr → Option (List Value × Nat)
  | [] => some ([], offset)
  | a :: attrs =>
    (decodeFieldAt byteData offset a).bind (fun p =>
      (deserializeFields byteData p.2 attrs).map (fun q => (p.1 :: q.1, q.2)))

/-- `RecordSerializer.deserialize` (lib/RecordSerializer.py:175): validate
the "RC" prefix and the 0xCC last byte, then walk the schema from
offset 2. -/
def deserialize (recordBytes : List Nat) (schema : List PyAttr) : Option (List Value) :=
  if recordBytes.take 2 ≠ [82, 67] then none
  else if recordBytes.getLast? ≠ some 204 then none
  else (deserializeFields recordBytes 2 schema).map Prod.fst

/-! ## Block (lib/Block.py) -/

/-- `DATA_SIZE = BLOCK_SIZE - 12` (lib/Block.py:5). -/
def DATA_SIZE : Nat := 4084

/-- A `Block` (lib/Block.py:8): header fields plus the 4084-byte data
area.  A freshly read or constructed block has `data.length = 4084`; the
length is carried as a hypothesis where a theorem needs it. -/
structure Block where
  pageId : Nat
  recordCount : Nat
  freeSpaceOffset : Nat
  data : List Nat
deriving DecidableEq

/-- `Block.__init__` / `reset_header` (lib/Block.py:16): zero header and a
zeroed data area. -/
def Block.new : Block :=
  ⟨0, 0, 0, List.replicate DATA_SIZE 0⟩

/-- `Block.capacity` (lib/Block.py:76): `DATA_SIZE - free_space_offset`
(a Python `int`, so possibly negative on a corrupt header). -/
def Block.capacity (b : Block) : Int :=
  (DATA_SIZE : Int) - (b.freeSpaceOffset : Int)

/-- Python `data[start : start+len(r)] = r` on a bytearray (exact-size
slice assignment, as performed with `start + len(r) ≤ len(data)`). -/
def writeBytesAt (data : List Nat) (start : Nat) (r : List Nat) : List Nat :=
  data.take start ++ r ++ data.drop (start + r.length)

/-- `Block.add_record` (lib/Block.py:37): `none` models the
`ValueError("Page is full, ...")`. -/
def Block.addRecord (b : Block) (r : List Nat) : Option Block :=
  if b.freeSpaceOffset + r.length > DATA_SIZE then none
  else some { b with
    data := writeBytesAt b.data b.freeSpaceOffset r
    freeSpaceOffset := b.freeSpaceOffset + r.length
    recordCount := b.recordCount + 1 }

/-- A table file as the sequence of its 4096-byte blocks. -/
abbrev TableFile := List Block

/-- `Block.read_block` (lib/Block.py:84) at a block number: reading past
the end of the file returns `b''`, and `from_bytes(b'')` leaves a block
with zero header fields and an empty data area (`data[:] = b''[12:]`). -/
def readBlockAt (file : TableFile) (n : Nat) : Block :=
  file.getD n ⟨0, 0, 0, []⟩

/-- `Block.write_block` (lib/Block.py:99) at a non-negative block number:
writing block `n` overwrites it in place; a seek past the current end of
file zero-fills the gap, which reads back as zero blocks. -/
def setBlock (file : TableFile) (n : Nat) (b : Block) : TableFile :=
  if n < file.length then file.set n b
  else file ++ List.replicate (n - file.length) ⟨0, 0, 0, List.replicate DATA_SIZE 0⟩ ++ [b]

/-! ## TableFileManager.write_table (lib/TableFileManager.py:59) -/

/-- Errors that `write_table` can surface to its caller. -/
inductive WTError where
  | serializationError
  | pageFull
deriving DecidableEq

/-- The `for record in records` loop of `write_table`
(lib/TableFileManager.py:72): serialize, try `add_record`, and on
`ValueError` flush the block, roll to a fresh block with `block_count`
incremented, and retry `add_record` once — whose failure propagates. -/
def writeTableLoop (schema : List PyAttr) :
    List (List Value) → Block → TableFile → Nat → Nat →
    Except WTError (Block × TableFile × Nat × Nat)
  | [], block, file, page, bc => .ok (block, file, page, bc)
  | r :: rs, block, file, page, bc =>
    match serialize r schema with
    | none => .error .serializationError
    | some bytes =>
      match block.addRecord bytes with
      | some b2 => writeTableLoop schema rs b2 file page bc
      | none =>
        let file2 := setBlock file page block
        match Block.new.addRecord bytes with
        | none => .error .pageFull
        | some b2 => writeTableLoop schema rs b2 file2 (page + 1) (bc + 1)

/-- `TableFileManager.write_table` (lib/TableFileManager.py:59): the last
block is loaded (here passed in as `lastBlock`), the records appended,
the final non-empty block flushed, and the record count increased.  The
`__update_header` byte patch of block 0 is not needed by any claim and is
omitted here.  Returns the new file, block count and record count. -/
def writeTable (schema : List PyAttr) (records : List (List Value))
    (lastBlock : Block) (file : TableFile) (blockCount recordCount : Nat) :
    Except WTError (TableFile × Nat × Nat) :=
  (writeTableLoop schema records lastBlock file (blockCount - 1) blockCount).map
    (fun res =>
      let file2 := if res.1.recordCount > 0 then setBlock res.2.1 res.2.2.1 res.1 else res.2.1
      (file2, res.2.2.2, recordCount + records.length))

/-! ## TableFileManager.delete_record (lib/TableFileManager.py:130) -/

/-- Failure modes of `delete_record`. -/
inductive DelError where
  /-- scanning for the 0xCC sentinel ran past the end of the data area -/
  | indexError
  /-- `RecordSerializer.deserialize` raised -/
  | deserializeError
  /-- `RecordSerializer.serialize` raised -/
  | serializeError
  /-- `Block.add_record` raised `PageFull` -/
  | pageFullError
  /-- `write_block` was called with block number -1: `fd.seek(-4096)`
  raises (negative seek position) -/
  | negativeSeek
deriving DecidableEq

/-- `write_block` with the Python `rewrite_block_num`, which can be -1. -/
def writeBlockSigned (file : TableFile) (n : Int) (b : Block) :
    Except DelError TableFile :=
  if n < 0 then .error .negativeSeek else .ok (setBlock file n.toNat b)

/-- One record scan of the inner `while block.data[offset] != 0xCC`
loops: collect bytes up to and including the sentinel, returning the
record and the remaining data; `none` models the `IndexError` when the
scan runs past the end of the data area. -/
def splitAtCC : List Nat → Option (List Nat × List Nat)
  | [] => none
  | b :: rest =>
    if b = 204 then some ([204], rest)
    else (splitAtCC rest).map (fun p => (b :: p.1, p.2))

/-- The sentinel scan of the inner `while offset < free_space_offset`
loops (lib/TableFileManager.py:159 and below): split the data area from
the current offset into its framed records.  `data` is the area already
dropped to the current offset and `fso` the remaining
`free_space_offset - offset`.  The loop advances the offset by at least
one byte per record, so `fuel = fso` iterations always suffice; the fuel
is structural recursion only, not part of the Python semantics. -/
def extractRecordsFuel : Nat → List Nat → Nat → Except DelError (List (List Nat))
  | 0, _, fso => if 0 < fso then .error .indexError else .ok []
  | fuel + 1, data, fso =>
    if 0 < fso then
      match splitAtCC data with
      | none => .error .indexError
      | some p => (extractRecordsFuel fuel p.2 (fso - p.1.length)).map (fun rs => p.1 :: rs)
    else .ok []

/-- The record extraction of one block during `delete_record`. -/
def extractRecords (data : List Nat) (fso : Nat) :
    Except DelError (List (List Nat)) :=
  extractRecordsFuel fso data fso

/-- Mutable state of the `delete_record` rewrite sweep. -/
structure DelState where
  rewriteBlock : Block
  rewriteNum : Int
  rows : Nat
  file : TableFile
deriving DecidableEq

/-- Python `data[0 : len(data)-hl] = data[hl:]` on a bytearray (the
header-strip shift of lib/TableFileManager.py:182): the first
`len(data) - hl` bytes are replaced by `data[hl:]`, the last `hl` bytes
keep their old values. -/
def shiftDataLeft (data : List Nat) (hl : Nat) : List Nat :=
  data.drop hl ++ data.drop (data.length - hl)

/-- The per-record body of the `delete_record` sweep
(lib/TableFileManager.py:160-197).  `cond` abstracts the evaluation of
the delete condition on the deserialized record.  The `free_space_offset
-= header_length` of line 184 is a Python int subtraction; the model
truncates at 0 (this branch is driven by a garbage header-length read
from a non-zero block and is not reached by the theorems below). -/
def delProcessRecord (schema : List PyAttr) (cond : List Value → Bool)
    (currentBlock : Nat) (blockData : List Nat) (st : DelState)
    (recBytes : List Nat) : Except DelError DelState :=
  match deserialize recBytes schema with
  | none => .error .deserializeError
  | some record =>
    let shouldDelete := cond record
    let st1 :=
      if st.rewriteNum = -1 ∧ shouldDelete then
        let st2 := { st with rewriteNum := (currentBlock : Int) }
        if currentBlock ≠ 0 then
          let hl := (fromBytesLE ((blockData.drop 4).take 4) false).toNat
          { st2 with rewriteBlock := { st2.rewriteBlock with
              data := shiftDataLeft st2.rewriteBlock.data hl
              freeSpaceOffset := st2.rewriteBlock.freeSpaceOffset - hl } }
        else st2
      else st
    if shouldDelete then .ok { st1 with rows := st1.rows + 1 }
    else
      match serialize record schema with
      | none => .error .serializeError
      | some ser =>
        if st1.rewriteBlock.capacity < (ser.length : Int) then
          match writeBlockSigned st1.file st1.rewriteNum st1.rewriteBlock with
          | .error e => .error e
          | .ok file2 =>
            let st3 : DelState :=
              ⟨Block.new, st1.rewriteNum + 1, st1.rows, file2⟩
            match st3.rewriteBlock.addRecord ser with
            | none => .error .pageFullError
            | some rb => .ok { st3 with rewriteBlock := rb }
        else
          match st1.rewriteBlock.addRecord ser with
          | none => .error .pageFullError
          | some rb => .ok { st1 with rewriteBlock := rb }

/-- One iteration of the outer `while current_block < self.block_count`
loop of `delete_record` (lib/TableFileManager.py:149): read the block,
skip the table header on block 0, extract the framed records, and feed
them through the sweep. -/
def delProcessBlock (schema : List PyAttr) (cond : List Value → Bool)
    (st : Except DelError DelState) (currentBlock : Nat) :
    Except DelError DelState :=
  match st with
  | .error e => .error e
  | .ok st =>
    let block := readBlockAt st.file currentBlock
    let offset0 :=
      if currentBlock = 0 then (fromBytesLE ((block.data.drop 4).take 4) false).toNat
      else 0
    match extractRecords (block.data.drop offset0) (block.freeSpaceOffset - offset0) with
    | .error e => .error e
    | .ok recs =>
      recs.foldlM (delProcessRecord schema cond currentBlock block.data) st

/-- `TableFileManager.delete_record` (lib/TableFileManager.py:130): seed
the rewrite block with the table header of block 0, sweep all blocks,
flush the final rewrite block (to `rewrite_block_num`, still -1 when no
record matched), then set `block_count = rewrite_block_num + 1` and
decrement `record_count`.  The `__update_header` byte patch writes the
new counts into block 0's data area.  Returns
`(file, block_count, record_count, rows_effected)`. -/
def deleteRecord (schema : List PyAttr) (cond : List Value → Bool)
    (file : TableFile) (blockCount recordCount : Nat) :
    Except DelError (TableFile × Nat × Nat × Nat) :=
  let firstBlock := readBlockAt file 0
  let hl := (fromBytesLE ((firstBlock.data.drop 4).take 4) false).toNat
  match Block.new.addRecord (firstBlock.data.take hl) with
  | none => .error .pageFullError
  | some rb =>
    let st0 : DelState := ⟨rb, -1, 0, file⟩
    match (List.range blockCount).foldl (delProcessBlock schema cond) (.ok st0) with
    | .error e => .error e
    | .ok st =>
      let flushed :=
        if st.rewriteBlock.recordCount > 0 then
          writeBlockSigned st.file st.rewriteNum st.rewriteBlock
        else .ok st.file
      match flushed with
      | .error e => .error e
      | .ok file2 =>
        let bc2 := (st.rewriteNum + 1).toNat
        let rc2 := recordCount - st.rows
        let b0 := readBlockAt file2 0
        let newData := writeBytesAt (writeBytesAt b0.data 8 (natBytesLE 4 rc2)) 12 (natBytesLE 2 bc2)
        let patched := { b0 with data := newData }
        .ok (setBlock file2 0 patched, bc2, rc2, st.rows)

/-- `TableFileManager.__write_header` (lib/TableFileManager.py:320): the
table-header byte string, with the length field patched in at bytes
4..8, added as a record to a fresh block 0. -/
def writeHeaderBlock (schemaBytes : List Nat) (attrCount recordCount blockCount : Nat) :
    Option Block := do
  let rc ← toBytesLE 4 (recordCount : Int) false
  let bc ← toBytesLE 2 (blockCount : Int) false
  let sl ← toBytesLE 2 (schemaBytes.length : Int) false
  let ac ← toBytesLE 2 (attrCount : Int) false
  let body := [72, 69, 65, 68] ++ natBytesLE 4 0 ++ rc ++ bc ++ sl ++ ac ++ schemaBytes ++ [204]
  let header := writeBytesAt body 4 (natBytesLE 4 body.length)
  Block.new.addRecord header

/-! ## Schema serialization (lib/schema.py, lib/attribute.py) -/

/-- utf-8 encoding of one code point. -/
def utf8EncodeChar (c : Nat) : List Nat :=
  if c < 128 then [c]
  else if c < 2048 then [192 + c / 64, 128 + c % 64]
  else if c < 65536 then [224 + c / 4096, 128 + (c / 64) % 64, 128 + c % 64]
  else [240 + c / 262144, 128 + (c / 4096) % 64, 128 + (c / 64) % 64, 128 + c % 64]

/-- Python `str.encode('utf-8')` on a code-point list. -/
def utf8Encode : List Nat → List Nat
  | [] => []
  | c :: rest => utf8EncodeChar c ++ utf8Encode rest

/-- A utf-8 continuation byte (`10xxxxxx`). -/
def utf8Cont (b : Nat) : Bool := decide (128 ≤ b) && decide (b < 192)

/-- Code point of a two-byte utf-8 sequence. -/
def utf8Val2 (b1 b2 : Nat) : Nat := (b1 - 192) * 64 + (b2 - 128)

/-- Code point of a three-byte utf-8 sequence. -/
def utf8Val3 (b1 b2 b3 : Nat) : Nat :=
  (b1 - 224) * 4096 + (b2 - 128) * 64 + (b3 - 128)

/-- Code point of a four-byte utf-8 sequence. -/
def utf8Val4 (b1 b2 b3 b4 : Nat) : Nat :=
  (b1 - 240) * 262144 + (b2 - 128) * 4096 + (b3 - 128) * 64 + (b4 - 128)

/-- Strict utf-8 decoding of one character: the leading byte `b` and the
remaining bytes, giving the code point and the rest, or `none` on a
malformed, truncated, overlong, surrogate or out-of-range sequence
(the cases CPython's strict decoder rejects with UnicodeDecodeError). -/
def utf8Step (b : Nat) (rest : List Nat) : Option (Nat × List Nat) :=
  if b < 128 then some (b, rest)
  else if b < 194 then none
  else if b < 224 then
    match rest with
    | b2 :: rest2 => if utf8Cont b2 then some (utf8Val2 b b2, rest2) else none
    | [] => none
  else if b < 240 then
    match rest with
    | b2 :: b3 :: rest3 =>
      if utf8Cont b2 && utf8Cont b3 && decide (2048 ≤ utf8Val3 b b2 b3) &&
          !(decide (55296 ≤ utf8Val3 b b2 b3) && decide (utf8Val3 b b2 b3 < 57344)) then
        some (utf8Val3 b b2 b3, rest3)
      else none
    | _ => none
  else if b < 245 then
    match rest with
    | b2 :: b3 :: b4 :: rest4 =>
      if utf8Cont b2 && utf8Cont b3 && utf8Cont b4 &&
          decide (65536 ≤ utf8Val4 b b2 b3 b4) &&
          decide (utf8Val4 b b2 b3 b4 ≤ 1114111) then
        some (utf8Val4 b b2 b3 b4, rest4)
      else none
    | _ => none
  else none

/-- Python `bytes.decode('utf-8')` (strict), one character at a time:
`none` models the `UnicodeDecodeError` on any invalid sequence.  Each
character consumes at least one byte, so `fuel = length` iterations
always suffice; the fuel exists only for structural recursion. -/
def utf8DecodeFuel : Nat → List Nat → Option (List Nat)
  | _, [] => some []
  | 0, _ :: _ => none
  | fuel + 1, b :: rest =>
    match utf8Step b rest with
    | none => none
    | some (c, rest2) => (utf8DecodeFuel fuel rest2).map (fun s => c :: s)

/-- Python `bytes.decode('utf-8')` (strict). -/
def utf8Decode (l : List Nat) : Option (List Nat) := utf8DecodeFuel l.length l

/-- `Attribute.__init__` (lib/attribute.py:6): reject unsupported dtypes
(`ValueError`), force `size = 4` for int/float and `size = 1` for char. -/
def mkAttribute (name dtype : List Nat) (size : Nat) : Option PyAttr :=
  if dtype = dtInt ∨ dtype = dtFloat ∨ dtype = dtChar ∨ dtype = dtVarchar then
    some ⟨name, dtype,
      if dtype = dtInt ∨ dtype = dtFloat then 4
      else if dtype = dtChar then 1
      else size⟩
  else none

/-- `Schema.serialize` (lib/schema.py:36): per attribute
`(name_len u16, name, dtype_len u16, dtype, size u16)`.  The length
fields are `len(attr.name)` / `len(attr.dtype)` — Python **character**
counts — while the payload is the utf-8 **byte** encoding, so for a
non-ASCII name the length prefix undercounts the stored bytes. -/
def serializeSchema : List PyAttr → Option (List Nat)
  | [] => some []
  | a :: rest => do
    let nl ← toBytesLE 2 (a.name.length : Int) false
    let dl ← toBytesLE 2 (a.dtype.length : Int) false
    let sz ← toBytesLE 2 (a.size : Int) false
    let r ← serializeSchema rest
    pure (nl ++ utf8Encode a.name ++ dl ++ utf8Encode a.dtype ++ sz ++ r)

/-- `Schema.deserialize` (lib/schema.py:51): the
`while offset < len(data)` loop, expressed on the suffix of `data` from
the current offset (Python slices of a suffix coincide with `take`/`drop`
of the suffix).  The `name_len`/`dtype_len` fields (character counts,
see `serializeSchema`) are used as **byte** counts for the slices, whose
`.decode('utf-8')` can raise (`none`); `Attribute(name, dtype, size)`
can raise on an unsupported dtype (`none`).  Each iteration consumes at
least six bytes, so `fuel = len(data)` iterations always suffice; the
fuel exists only for structural recursion. -/
def deserializeSchemaFuel : Nat → List Nat → Option (List PyAttr)
  | 0, data => if data = [] then some [] else none
  | fuel + 1, data =>
    if data = [] then some []
    else
      let nameLen := (fromBytesLE (data.take 2) false).toNat
      let nameBytes := (data.drop 2).take nameLen
      let rest1 := data.drop (2 + nameLen)
      let dtypeLen := (fromBytesLE (rest1.take 2) false).toNat
      let dtypeBytes := (rest1.drop 2).take dtypeLen
      let rest2 := rest1.drop (2 + dtypeLen)
      let size := (fromBytesLE (rest2.take 2) false).toNat
      do
        let name ← utf8Decode nameBytes
        let dtype ← utf8Decode dtypeBytes
        let a ← mkAttribute name dtype size
        let rest ← deserializeSchemaFuel fuel (rest2.drop 2)
        pure (a :: rest)

/-- `Schema.deserialize` (lib/schema.py:51). -/
def deserializeSchema (data : List Nat) : Option (List PyAttr) :=
  deserializeSchemaFuel data.length data

/-- `Schema.get_metadata` (lib/schema.py:28). -/
def getMetadata (attrs : List PyAttr) : List (List Nat × List Nat × Nat) :=
  attrs.map (fun a => (a.name, a.dtype, a.size))

/-- The amended domain of the schema round-trip claim: a valid dtype
with the size normalization that `Attribute.__init__` enforces, an
ASCII name (so its character count equals its utf-8 byte count — the
length prefix written by `Schema.serialize` is the character count but
is read back as a byte count, which misparses non-ASCII names) fitting
a u16 length, and a size below 2^16. -/
def validAttr (a : PyAttr) : Bool :=
  decide (a.name.length < 2 ^ 16) && a.name.all (fun c => decide (c < 128)) &&
    ((decide (a.dtype = dtInt) && decide (a.size = 4)) ||
      (decide (a.dtype = dtFloat) && decide (a.size = 4)) ||
      (decide (a.dtype = dtChar) && decide (a.size = 1)) ||
      (decide (a.dtype = dtVarchar) && decide (a.size < 2 ^ 16)))

/-! ## StorageManager.get_joined_table, fetch phase (StorageManager.py:125) -/

/-- The condition-filter step of `StorageManager.get_table_data`
(StorageManager.py:74): with a condition and a table other than
`information_schema`, keep the records on which the condition evaluates
true.  Records and condition evaluation are abstract here; the
projection argument plays no role in the claims about this phase. -/
def getTableDataFiltered {α : Type} (tableName : String) (records : List α)
    (cond : Option (α → Bool)) : List α :=
  match cond with
  | some c => if tableName ≠ "information_schema" then records.filter c else records
  | none => records

/-- Python `lst[k]` on the condition list, total via a default (the index
is always in range when the length precondition of `get_joined_table`
holds). -/
def pyGetCond {α : Type} (conds : List (Option (α → Bool))) (k : Nat) :
    Option (α → Bool) :=
  conds.getD k none

/-- The `for i, table_name in enumerate(table_names)` fetch loop of
`StorageManager.get_joined_table` (StorageManager.py:127):
`condition = table_conditions[i-1] if i > 0 else None`. -/
def joinFetchAux {α : Type} (conds : List (Option (α → Bool))) :
    Nat → List (String × List α) → List (List α)
  | _, [] => []
  | i, (nm, recs) :: rest =>
    getTableDataFiltered nm recs (if i > 0 then pyGetCond conds (i - 1) else none) ::
      joinFetchAux conds (i + 1) rest

/-- The per-table record lists built by the fetch phase of
`get_joined_table` (the `table_records` list, StorageManager.py:125-135),
with each table given as its name and its unfiltered records. -/
def joinFetchRecords {α : Type} (tables : List (String × List α))
    (conds : List (Option (α → Bool))) : List (List α) :=
  joinFetchAux conds 0 tables

/-! ## Hash-index key computation (StorageManager.py:389, 439) -/

/-- Python `int(v).to_bytes()` as written in `set_index`/`get_index` for
an int column: all arguments defaulted, so length 1, byteorder "big",
unsigned; `none` models the `OverflowError` outside `[0, 255]`. -/
def intToBytesNoArgs (v : Int) : Option (List Nat) :=
  if 0 ≤ v ∧ v < 256 then some [v.toNat] else none

/-- The int-column hash key of `set_index` (StorageManager.py:389-393)
and `get_index` (StorageManager.py:439):
`int(sha256(int(v).to_bytes()).hexdigest(), 16) % 2**32`.  `digest`
abstracts sha-256 as the 256-bit digest read as a big-endian integer. -/
def hashKeyInt (digest : List Nat → Nat) (v : Int) : Option Nat :=
  (intToBytesNoArgs v).map (fun bs => digest bs % 2 ^ 32)

/-- The 4-byte big-endian two's-complement encoding of an int32, the
digest input asserted by the specification (spec.md section 6.1). -/
def specIntDigestInput (v : Int) : List Nat :=
  natBytesBE 4 (v % (2 ^ 32 : Int)).toNat

/-! ## StorageManager.get_index (StorageManager.py:429) -/

/-- The `attr_count` loop of `get_index` (StorageManager.py:454-457):
starts at -1 and is overwritten by every matching column, so it ends as
the last matching index, or -1 when the column is absent. -/
def findColIdxAux (col : List Nat) : List PyAttr → Nat → Int → Int
  | [], _, acc => acc
  | a :: rest, i, acc => findColIdxAux col rest (i + 1) (if a.name = col then (i : Int) else acc)

/-- `attr_count` for a column name. -/
def findColIdx (meta : List PyAttr) (col : List Nat) : Int :=
  findColIdxAux col meta 0 (-1)

/-- Python `lst[i]` with a possibly negative index: `lst[-k]` is
`lst[len-k]` when `k ≤ len`, out-of-range raises (`none`). -/
def pyIndex {α : Type} (l : List α) (i : Int) : Option α :=
  if 0 ≤ i then l.get? i.toNat
  else if (-i).toNat ≤ l.length then l.get? (l.length - (-i).toNat) else none

/-- The candidate read of `get_index` (StorageManager.py:462-475): read
the block, scan from the stored offset to the 0xCC sentinel, and
deserialize. -/
def readRecordAt (file : TableFile) (schema : List PyAttr) (blk off : Nat) :
    Except DelError (List Value) :=
  let block := readBlockAt file blk
  match (block.data.drop off).findIdx? (fun b => b = 204) with
  | none => .error .indexError
  | some j =>
    match deserialize ((block.data.drop off).take (j + 1)) schema with
    | none => .error .deserializeError
    | some r => .ok r

/-- One candidate of the `for i in range(len(index_result))` loop of
`get_index` (StorageManager.py:462-479): read the record at the stored
`(block, offset)` and append it to the result when its column value
equals the query value. -/
def getIndexStep (schema : List PyAttr) (column : List Nat) (file : TableFile)
    (value : Value) (acc : List (List Value)) (c : Nat × Nat) :
    Except DelError (List (List Value)) := do
  let record ← readRecordAt file schema c.1 c.2
  match pyIndex record (findColIdx schema column) with
  | none => Except.error DelError.indexError
  | some v => pure (if v = value then acc ++ [record] else acc)

/-- `StorageManager.get_index` (StorageManager.py:429): `none` when the
index file is absent; otherwise each candidate `(block, offset)` of the
loaded index is read back and kept only if its column value equals the
query value (the collision filter of line 477).  The key computation and
the pickle load are abstracted into the candidate list. -/
def getIndexLookup (present : Bool) (candidates : List (Nat × Nat))
    (schema : List PyAttr) (column : List Nat) (file : TableFile)
    (value : Value) : Option (Except DelError (List (List Value))) :=
  if present then
    some (candidates.foldlM (getIndexStep schema column file value) [])
  else none

/-! ## Condition.classify_operand (lib/Condition.py:59) -/

/-- Condition operands are Python strings at the surface; modelled as
lists of characters. -/
abbrev PyStr := List Char

/-- The single-quote character, `chr(39)`. -/
def quoteChar : Char := Char.ofNat 39

/-- Python `operand.replace('.', '', 1)`: remove the first dot. -/
def pyReplaceFirstDot : PyStr → PyStr
  | [] => []
  | c :: rest => if c = '.' then rest else c :: pyReplaceFirstDot rest

/-- Python `str.isdigit` on one character: true for every character of
Unicode `Numeric_Type=Digit` or `Decimal`.  The table is exact on the
code points this development evaluates: the ASCII digits, the
Arabic-Indic digit block U+0660-U+0669 (category Nd, decimal values
0-9), and the Latin-1 superscripts U+00B9/U+00B2/U+00B3
(`Numeric_Type=Digit` but **not** decimal, so `int()`/`float()` raise on
them); all other non-ASCII code points are treated as non-digits. -/
def pyIsDigitChar (c : Char) : Bool :=
  c.isDigit || decide (1632 ≤ c.toNat ∧ c.toNat ≤ 1641) ||
    decide (c.toNat = 185 ∨ c.toNat = 178 ∨ c.toNat = 179)

/-- Python `str.isdigit`: nonempty and every character a digit. -/
def pyIsDigitStr (s : PyStr) : Bool :=
  (!s.isEmpty) && s.all pyIsDigitChar

/-- Python `str.strip("'")`: remove all leading and trailing quotes. -/
def pyStripQuotes (s : PyStr) : PyStr :=
  ((s.dropWhile (fun c => c = quoteChar)).reverse.dropWhile
      (fun c => c = quoteChar)).reverse

/-- The decimal value of a character, `some` exactly for characters of
Unicode category Nd among the modelled code points (ASCII digits and the
Arabic-Indic digits); superscript digits have none, which is what makes
`int('\xb2')` raise ValueError. -/
def pyDecimalDigit (c : Char) : Option Nat :=
  if c.isDigit then some (c.toNat - 48)
  else if 1632 ≤ c.toNat ∧ c.toNat ≤ 1641 then some (c.toNat - 1632)
  else none

/-- The base-10 value of a string of decimal digits. -/
def decimalVal (s : PyStr) : Int :=
  s.foldl (fun acc c => 10 * acc + ((pyDecimalDigit c).getD 0 : Int)) 0

/-- Python `int(s)` for a string that passed the `isdigit` gate of
`classify_operand`: it succeeds exactly when every character is a
decimal digit (Nd); a character that is a digit without a decimal value
(e.g. a superscript) makes `int` raise ValueError (`none`). -/
def pyIntParse (s : PyStr) : Option Int :=
  if s.isEmpty then none
  else if s.all (fun c => (pyDecimalDigit c).isSome) then some (decimalVal s)
  else none

/-- Python `float(s)` success for a string that passed the `isdigit`
gate of `classify_operand` (digits plus exactly one dot, the only
strings this predicate is applied to): `float` succeeds exactly when
every digit is decimal (Nd), and raises ValueError otherwise. -/
def pyFloatParseOk (s : PyStr) : Bool :=
  s.all (fun c => c = Char.ofNat 46 || (pyDecimalDigit c).isSome)

/-- The classification result of `Condition.classify_operand`: the
`{"value": ..., "isAttribute": ..., "type": ...}` dictionaries of
lib/Condition.py:59-84.  The numeric value of a float constant is kept
as its source text (`float(operand)` parsing is not needed by any
claim). -/
inductive ClassifiedOperand where
  | intConst (v : Int)
  | floatConst (raw : PyStr)
  | varcharConst (v : PyStr)
  | attrRef (v : PyStr)
deriving DecidableEq

/-- `Condition.classify_operand` (lib/Condition.py:59).  The numeric
branches evaluate `float(operand)` / `int(operand)` while building the
result dictionary, so an operand that passes the `isdigit` gate but is
not decimally parseable raises ValueError there (`none`). -/
def classifyOperand (s : PyStr) : Option ClassifiedOperand :=
  if pyIsDigitStr (pyReplaceFirstDot s) then
    if s.contains '.' then
      if pyFloatParseOk s then some (.floatConst s) else none
    else (pyIntParse s).map ClassifiedOperand.intConst
  else if s.head? = some quoteChar ∧ s.getLast? = some quoteChar then
    some (.varcharConst (pyStripQuotes s))
  else some (.attrRef s)

/-- Number of dots in an operand string. -/
def countDots : PyStr → Nat
  | [] => 0
  | c :: r => countDots r + (if c = '.' then 1 else 0)

/-- The surface-syntax predicate of the claim: a string consisting only
of digits and at most one dot, with at least one digit. -/
def numericSurface (s : PyStr) : Bool :=
  s.any Char.isDigit && s.all (fun c => c.isDigit || c = '.') &&
    decide (countDots s ≤ 1)

/-! ## Record / schema predicates used by the claims -/

/-- The claim's domain (spec.md section 8): a value matching an attribute
— int in `[-2^31, 2^31)`, a float32 bit pattern, a char of length 1, a
varchar of length at most the declared size. -/
def claimFieldMatches (v : Value) (a : PyAttr) : Bool :=
  if a.dtype = dtInt then
    match v with
    | .vint i => decide (-(2 ^ 31 : Int) ≤ i) && decide (i < (2 ^ 31 : Int))
    | _ => false
  else if a.dtype = dtFloat then
    match v with
    | .vfloat b => decide (b < 2 ^ 32)
    | _ => false
  else if a.dtype = dtChar then
    match v with
    | .vstr s => decide (s.length = 1)
    | _ => false
  else if a.dtype = dtVarchar then
    match v with
    | .vstr s => decide (s.length ≤ a.size)
    | _ => false
  else false

/-- "tuple r matching schema s" of the round-trip claim. -/
def recordMatches (r : List Value) (s : List PyAttr) : Bool :=
  decide (r.length = s.length) && (List.zip r s).all (fun p => claimFieldMatches p.1 p.2)

/-- The amended per-field condition under which the round trip actually
holds on the code: ints as claimed (with the normalized size 4); float
bit patterns with a clear sign bit (a set sign bit makes `encodeFloat`
raise `OverflowError`); chars a single non-NUL byte with the normalized
size 1 (a NUL byte is eaten by the `rstrip('\x00')` of `decodeChar`);
varchar values already wrapped in single quotes (`deserialize` returns
varchars quote-wrapped) and, quotes included, no longer than the
declared size, which fits a u16. -/
def fieldOk (v : Value) (a : PyAttr) : Bool :=
  if a.dtype = dtInt then
    match v with
    | .vint i =>
      decide (a.size = 4) && decide (-(2 ^ 31 : Int) ≤ i) && decide (i < (2 ^ 31 : Int))
    | _ => false
  else if a.dtype = dtFloat then
    match v with
    | .vfloat b => decide (b < 2 ^ 31)
    | _ => false
  else if a.dtype = dtChar then
    match v with
    | .vstr s =>
      decide (a.size = 1) &&
        (match s with
         | [c] => decide (c ≠ 0)
         | _ => false)
    | _ => false
  else if a.dtype = dtVarchar then
    match v with
    | .vstr s =>
      decide (s.length ≤ a.size) && decide (a.size < 2 ^ 16) &&
        decide (2 ≤ s.length) && decide (s.head? = some 39) &&
        decide (s.getLast? = some 39)
    | _ => false
  else false

/-- The amended round-trip domain. -/
def recordOkAmended (r : List Value) (s : List PyAttr) : Bool :=
  decide (r.length = s.length) && (List.zip r s).all (fun p => fieldOk p.1 p.2)

/-! ## Byte-level lemmas -/

theorem natBytesLE_length (k n : Nat) : (natBytesLE k n).length = k := by
  induction k generalizing n with
  | zero => rfl
  | succ k ih => simp [natBytesLE, ih]

theorem natFromBytesLE_natBytesLE (k n : Nat) :
    natFromBytesLE (natBytesLE k n) = n % 2 ^ (8 * k) := by
  induction k generalizing n with
  | zero => simp [natBytesLE, natFromBytesLE, Nat.mod_one]
  | succ k ih =>
    have hsplit : n % (256 * 2 ^ (8 * k)) =
        n % 256 + 256 * (n / 256 % 2 ^ (8 * k)) := by
      have h1 : n % (256 * 2 ^ (8 * k)) % 256 = n % 256 :=
        Nat.mod_mod_of_dvd n (Dvd.intro _ rfl)
      have h2 : n % (256 * 2 ^ (8 * k)) / 256 = n / 256 % 2 ^ (8 * k) :=
        Nat.mod_mul_right_div_self n 256 (2 ^ (8 * k))
      have h3 := Nat.div_add_mod (n % (256 * 2 ^ (8 * k))) 256
      omega
    have hpow : 2 ^ (8 * (k + 1)) = 256 * 2 ^ (8 * k) := by
      rw [Nat.mul_succ, Nat.pow_add]
      ring
    simp only [natBytesLE, natFromBytesLE, ih, hpow, hsplit]

theorem fromBytesLE_unsigned (bs : List Nat) :
    fromBytesLE bs false = (natFromBytesLE bs : Int) := by
  simp [fromBytesLE]

theorem unsigned_roundtrip (k : Nat) (n : Nat) (h : n < 2 ^ (8 * k)) :
    toBytesLE k (n : Int) false = some (natBytesLE k n) ∧
      fromBytesLE (natBytesLE k n) false = (n : Int) := by
  constructor
  · have hlt : (n : Int) < (2 ^ (8 * k) : Int) := by exact_mod_cast h
    simp [toBytesLE, hlt, Int.toNat_natCast]
  · rw [fromBytesLE_unsigned, natFromBytesLE_natBytesLE, Nat.mod_eq_of_lt h]

theorem signed_bytes_eq (k : Nat) (i : Int)
    (h1 : -(2 ^ (8 * k - 1) : Int) ≤ i) (h2 : i < (2 ^ (8 * k - 1) : Int)) :
    toBytesLE k i true = some (natBytesLE k (i % (2 ^ (8 * k) : Int)).toNat) := by
  simp [toBytesLE, h1, h2]

theorem signed_roundtrip (k : Nat) (i : Int) (hk : 0 < k)
    (h1 : -(2 ^ (8 * k - 1) : Int) ≤ i) (h2 : i < (2 ^ (8 * k - 1) : Int)) :
    fromBytesLE (natBytesLE k (i % (2 ^ (8 * k) : Int)).toNat) true = i := by
  have hpow : (2 ^ (8 * k) : Int) = 2 * 2 ^ (8 * k - 1) := by
    conv_lhs => rw [show 8 * k = (8 * k - 1) + 1 by omega]
    rw [pow_succ]
    ring
  have hM : (0 : Int) < 2 ^ (8 * k - 1) := by positivity
  have hmod : i % (2 ^ (8 * k) : Int) = if 0 ≤ i then i else i + 2 ^ (8 * k) := by
    by_cases hi : 0 ≤ i
    · simp only [hi, if_true]
      exact Int.emod_eq_of_lt hi (by omega)
    · simp only [hi, if_false]
      have heq : (i + 2 ^ (8 * k)) % (2 ^ (8 * k) : Int) = i % (2 ^ (8 * k) : Int) := by
        simp
      rw [← heq]
      exact Int.emod_eq_of_lt (by omega) (by omega)

  have hufacts : natFromBytesLE (natBytesLE k (i % (2 ^ (8 * k) : Int)).toNat) =
      (i % (2 ^ (8 * k) : Int)).toNat := by
    rw [natFromBytesLE_natBytesLE]
    apply Nat.mod_eq_of_lt
    have : (i % (2 ^ (8 * k) : Int)).toNat < (2 ^ (8 * k) : Int).toNat := by
      have hlt : i % (2 ^ (8 * k) : Int) < 2 ^ (8 * k) := by
        rw [hmod]; split <;> omega
      have hge : 0 ≤ i % (2 ^ (8 * k) : Int) := by
        rw [hmod]; split <;> omega
      omega
    have hcast : (2 ^ (8 * k) : Int).toNat = 2 ^ (8 * k) := by
      rw [show ((2 : Int) ^ (8 * k)) = ((2 ^ (8 * k) : Nat) : Int) by push_cast; rfl,
        Int.toNat_natCast]
    omega
  simp only [fromBytesLE, natBytesLE_length, hufacts]
  by_cases hi : 0 ≤ i
  · have hieq : i % (2 ^ (8 * k) : Int) = i := by rw [hmod]; simp [hi]
    have hthresh : ¬ (2 ^ (8 * k - 1) ≤ (i % (2 ^ (8 * k) : Int)).toNat) := by
      have : ((2 : Nat) ^ (8 * k - 1) : Int) = (2 : Int) ^ (8 * k - 1) := by
        push_cast; rfl
      omega
    simp only [hthresh, and_false, if_false]
    omega
  · have hieq : i % (2 ^ (8 * k) : Int) = i + 2 ^ (8 * k) := by rw [hmod]; simp [hi]
    have hthresh : (2 ^ (8 * k - 1) ≤ (i % (2 ^ (8 * k) : Int)).toNat) := by
      have : ((2 : Nat) ^ (8 * k - 1) : Int) = (2 : Int) ^ (8 * k - 1) := by
        push_cast; rfl
      omega
    simp only [hthresh, and_true, if_true]
    omega

/-! ## List slice helpers -/

theorem take_append_len {α : Type} (l₁ l₂ : List α) (k : Nat) (h : l₁.length = k) :
    (l₁ ++ l₂).take k = l₁ := by
  subst h
  simp

theorem drop_append_len {α : Type} (l₁ l₂ : List α) (k : Nat) (h : l₁.length = k) :
    (l₁ ++ l₂).drop k = l₂ := by
  subst h
  simp

theorem dropLast_append_getLast {α : Type} :
    ∀ (l : List α) (x : α), l.getLast? = some x → l.dropLast ++ [x] = l
  | [a], x, h => by simp_all [List.getLast?]
  | a :: b :: t, x, h => by
    have ih := dropLast_append_getLast (b :: t) x (by simpa using h)
    simpa using ih

/-! ## Record serializer round trip -/

theorem fromBytesLE_natBytesLE_int32 (i : Int)
    (hlo : -(2 ^ 31 : Int) ≤ i) (hhi : i < (2 ^ 31 : Int)) :
    fromBytesLE (natBytesLE 4 (i % (2 ^ (8 * 4) : Int)).toNat) true = i :=
  signed_roundtrip 4 i (by norm_num) (by norm_num; omega) (by norm_num; omega)

theorem neq_dtFloat_dtInt : (dtFloat = dtInt) = False := eq_false (by decide)

theorem neq_dtChar_dtInt : (dtChar = dtInt) = False := eq_false (by decide)

theorem neq_dtChar_dtFloat : (dtChar = dtFloat) = False := eq_false (by decide)

theorem neq_dtVarchar_dtInt : (dtVarchar = dtInt) = False := eq_false (by decide)

theorem neq_dtVarchar_dtFloat : (dtVarchar = dtFloat) = False := eq_false (by decide)

theorem neq_dtVarchar_dtChar : (dtVarchar = dtChar) = False := eq_false (by decide)

theorem field_rt_int (i : Int) (a : PyAttr) (hd : a.dtype = dtInt) (hs : a.size = 4)
    (hlo : -(2 ^ 31 : Int) ≤ i) (hhi : i < (2 ^ 31 : Int)) :
    ∃ fb, serializeField (.vint i) a.dtype a.size = some fb ∧
      ∀ pre post : List Nat,
        decodeFieldAt (pre ++ (fb ++ post)) pre.length a =
          some (.vint i, pre.length + fb.length) := by
  refine ⟨natBytesLE 4 (i % (2 ^ (8 * 4) : Int)).toNat, ?_, ?_⟩
  · rw [hd, hs]
    simp only [serializeField, eq_self_iff_true, if_true, encodeInt]
    exact signed_bytes_eq 4 i (by norm_num; omega) (by norm_num; omega)
  · intro pre post
    simp only [decodeFieldAt, hd, eq_self_iff_true, if_true, decodeInt, hs]
    rw [drop_append_len pre _ _ rfl,
      take_append_len _ _ _ (natBytesLE_length 4 _),
      fromBytesLE_natBytesLE_int32 i hlo hhi, natBytesLE_length]

theorem field_rt_float (b : Nat) (a : PyAttr) (hd : a.dtype = dtFloat)
    (hb : b < 2 ^ 31) :
    ∃ fb, serializeField (.vfloat b) a.dtype a.size = some fb ∧
      ∀ pre post : List Nat,
        decodeFieldAt (pre ++ (fb ++ post)) pre.length a =
          some (.vfloat b, pre.length + fb.length) := by
  have hne : dtFloat ≠ dtInt := by decide
  have hmod : ((b : Int) % (2 ^ (8 * 4) : Int)) = (b : Int) := by
    apply Int.emod_eq_of_lt (by positivity)
    norm_num
    omega
  refine ⟨natBytesLE 4 b, ?_, ?_⟩
  · rw [hd]
    simp only [serializeField, hne, if_false, eq_self_iff_true, if_true, encodeFloat,
      encodeInt]
    rw [signed_bytes_eq 4 (b : Int) (by norm_num; omega) (by norm_num; omega), hmod,
      Int.toNat_natCast]
  · intro pre post
    have hdec : fromBytesLE (natBytesLE 4 b) true = (b : Int) := by
      have h0 := signed_roundtrip 4 (b : Int) (by norm_num) (by norm_num; omega)
        (by norm_num; omega)
      rwa [hmod, Int.toNat_natCast] at h0
    simp only [decodeFieldAt, hd, hne, if_false, eq_self_iff_true, if_true, decodeFloat,
      decodeInt]
    rw [drop_append_len pre _ _ rfl,
      take_append_len _ _ _ (natBytesLE_length 4 _), hdec]
    have hnonneg : ¬ ((b : Int) < 0) := by omega
    simp [hnonneg, natBytesLE_length]

theorem field_rt_char (c : Nat) (a : PyAttr) (hd : a.dtype = dtChar)
    (hs : a.size = 1) (hc : c ≠ 0) :
    ∃ fb, serializeField (.vstr [c]) a.dtype a.size = some fb ∧
      ∀ pre post : List Nat,
        decodeFieldAt (pre ++ (fb ++ post)) pre.length a =
          some (.vstr [c], pre.length + fb.length) := by
  have hne1 : dtChar ≠ dtInt := by decide
  have hne2 : dtChar ≠ dtFloat := by decide
  refine ⟨[c], ?_, ?_⟩
  · rw [hd, hs]
    simp [serializeField, hne1, hne2, encodeChar]
  · intro pre post
    simp only [decodeFieldAt, hd, hne1, hne2, if_false, eq_self_iff_true, if_true,
      decodeChar, hs]
    rw [drop_append_len pre _ _ rfl, take_append_len [c] post 1 rfl]
    simp [rstrip0, List.dropWhile, hc]

theorem field_rt_varchar (rest : List Nat) (a : PyAttr) (hd : a.dtype = dtVarchar)
    (hrestne : rest ≠ []) (hlast : rest.getLast? = some 39)
    (hlen : ((39 : Nat) :: rest).length ≤ a.size) (hmax : a.size < 2 ^ 16) :
    ∃ fb, serializeField (.vstr (39 :: rest)) a.dtype a.size = some fb ∧
      ∀ pre post : List Nat,
        decodeFieldAt (pre ++ (fb ++ post)) pre.length a =
          some (.vstr (39 :: rest), pre.length + fb.length) := by
  have hne1 : dtVarchar ≠ dtInt := by decide
  have hne2 : dtVarchar ≠ dtFloat := by decide
  have hne3 : dtVarchar ≠ dtChar := by decide
  have hstrip : ((39 : Nat) :: rest).getLastD 0 = 39 := by
    cases rest with
    | nil => exact absurd rfl hrestne
    | cons b t =>
      rw [List.getLastD_eq_getLast? 0 (39 :: b :: t), List.getLast?_cons_cons, hlast]
      rfl
  have hlen2 : rest.dropLast.length = rest.length - 1 := List.length_dropLast rest
  have hrestlen : 1 ≤ rest.length := by
    cases rest with
    | nil => exact absurd rfl hrestne
    | cons b t => simp
  have hleb := unsigned_roundtrip 2 rest.dropLast.length
    (by simp only [hlen2]; simp only [List.length_cons] at hlen; omega)
  refine ⟨natBytesLE 2 rest.dropLast.length ++ rest.dropLast, ?_, ?_⟩
  · rw [hd]
    simp only [serializeField, hne1, hne2, hne3, if_false, eq_self_iff_true, if_true]
    rw [if_pos hlen]
    simp only [encodeVarChar, hstrip, and_true, eq_self_iff_true, if_true,
      List.drop_succ_cons, List.drop_zero]
    have hnotgt : ¬ (rest.dropLast.length > a.size) := by
      simp only [List.length_cons] at hlen
      omega
    rw [if_neg hnotgt, hleb.1]
    rfl
  · intro pre post
    have hbd1 : (pre ++ ((natBytesLE 2 rest.dropLast.length ++ rest.dropLast) ++ post)).drop
        pre.length = (natBytesLE 2 rest.dropLast.length ++ rest.dropLast) ++ post :=
      drop_append_len _ _ _ rfl
    have htake2 : ((natBytesLE 2 rest.dropLast.length ++ rest.dropLast) ++ post).take 2 =
        natBytesLE 2 rest.dropLast.length := by
      rw [List.append_assoc]
      exact take_append_len _ _ _ (natBytesLE_length 2 _)
    have hsplit : pre ++ ((natBytesLE 2 rest.dropLast.length ++ rest.dropLast) ++ post) =
        (pre ++ natBytesLE 2 rest.dropLast.length) ++ (rest.dropLast ++ post) := by
      simp [List.append_assoc]
    have hbd2 : (pre ++ ((natBytesLE 2 rest.dropLast.length ++ rest.dropLast) ++ post)).drop
        (pre.length + 2) = rest.dropLast ++ post := by
      rw [hsplit]
      exact drop_append_len _ _ _ (by simp [natBytesLE_length])
    have htakeL : (rest.dropLast ++ post).take rest.dropLast.length = rest.dropLast :=
      take_append_len _ _ _ rfl
    simp only [decodeFieldAt, hd, hne1, hne2, hne3, if_false, eq_self_iff_true, if_true,
      decodeVarChar, hbd1, htake2, hbd2, hleb.2, Int.toNat_natCast, htakeL]
    rw [dropLast_append_getLast rest 39 hlast]
    simp only [List.length_append, natBytesLE_length]
    rw [Nat.add_assoc]

theorem decodeFieldAt_serializeField (v : Value) (a : PyAttr) (h : fieldOk v a = true) :
    ∃ fb, serializeField v a.dtype a.size = some fb ∧
      ∀ pre post : List Nat,
        decodeFieldAt (pre ++ (fb ++ post)) pre.length a =
          some (v, pre.length + fb.length) := by
  cases v with
  | vint i =>
    by_cases hint : a.dtype = dtInt
    · simp only [fieldOk, hint, eq_self_iff_true, if_true, Bool.and_eq_true,
        decide_eq_true_eq] at h
      exact field_rt_int i a hint h.1.1 h.1.2 h.2
    · exfalso
      simp [fieldOk, hint] at h
  | vfloat b =>
    by_cases hfloat : a.dtype = dtFloat
    · simp only [fieldOk, hfloat, neq_dtFloat_dtInt, if_false, eq_self_iff_true, if_true,
        decide_eq_true_eq] at h
      exact field_rt_float b a hfloat h
    · exfalso
      simp [fieldOk, hfloat] at h
  | vstr s =>
    by_cases hchar : a.dtype = dtChar
    · cases s with
      | nil =>
        exfalso
        simp [fieldOk, hchar, neq_dtChar_dtInt, neq_dtChar_dtFloat] at h
      | cons c t =>
        cases t with
        | nil =>
          simp only [fieldOk, hchar, neq_dtChar_dtInt, neq_dtChar_dtFloat, if_false,
            eq_self_iff_true, if_true, Bool.and_eq_true, decide_eq_true_eq] at h
          exact field_rt_char c a hchar h.1 h.2
        | cons d t2 =>
          exfalso
          simp [fieldOk, hchar, neq_dtChar_dtInt, neq_dtChar_dtFloat] at h
    · by_cases hvarchar : a.dtype = dtVarchar
      · cases s with
        | nil =>
          exfalso
          simp [fieldOk, hvarchar, neq_dtVarchar_dtInt, neq_dtVarchar_dtFloat,
            neq_dtVarchar_dtChar] at h
        | cons q rest =>
          simp only [fieldOk, hvarchar, neq_dtVarchar_dtInt, neq_dtVarchar_dtFloat,
            neq_dtVarchar_dtChar, if_false, eq_self_iff_true, if_true, Bool.and_eq_true,
            decide_eq_true_eq, List.head?_cons, Option.some.injEq] at h
          obtain ⟨⟨⟨⟨hlen, hmax⟩, h2⟩, hhead⟩, hlast⟩ := h
          subst hhead
          have hrestne : rest ≠ [] := by
            intro hr
            rw [hr] at h2
            simp at h2
          have hlast2 : rest.getLast? = some 39 := by
            cases rest with
            | nil => exact absurd rfl hrestne
            | cons b t =>
              rw [List.getLast?_cons_cons] at hlast
              exact hlast
          exact field_rt_varchar rest a hvarchar hrestne hlast2 hlen hmax
      · exfalso
        cases s <;>
          simp [fieldOk, hchar, hvarchar] at h

theorem deserializeFields_serializeFields :
    ∀ (attrs : List PyAttr) (vs : List Value),
      vs.length = attrs.length →
      (List.zip vs attrs).all (fun p => fieldOk p.1 p.2) = true →
      ∃ mid, serializeFields vs attrs = some mid ∧
        ∀ pre post : List Nat,
          deserializeFields (pre ++ (mid ++ post)) pre.length attrs =
            some (vs, pre.length + mid.length) := by
  intro attrs
  induction attrs with
  | nil =>
    intro vs hlen hall
    cases vs with
    | nil =>
      refine ⟨[], rfl, fun pre post => ?_⟩
      simp [deserializeFields]
    | cons v vs => simp at hlen
  | cons a attrs ih =>
    intro vs hlen hall
    cases vs with
    | nil => simp at hlen
    | cons v vs =>
      simp only [List.zip_cons_cons, List.all_cons, Bool.and_eq_true] at hall
      obtain ⟨fb, hfb, hdec⟩ := decodeFieldAt_serializeField v a hall.1
      obtain ⟨mid, hmid, hdes⟩ := ih vs (by simpa using hlen) hall.2
      refine ⟨fb ++ mid, ?_, ?_⟩
      · simp [serializeFields, hfb, hmid]
      · intro pre post
        rw [show pre ++ ((fb ++ mid) ++ post) = pre ++ (fb ++ (mid ++ post)) by simp]
        simp only [deserializeFields]
        rw [hdec pre (mid ++ post)]
        simp only [Option.some_bind]
        rw [show pre ++ (fb ++ (mid ++ post)) = (pre ++ fb) ++ (mid ++ post) by simp]
        have hd2 := hdes (pre ++ fb) post
        rw [List.length_append] at hd2
        rw [hd2]
        simp [List.length_append, Nat.add_assoc]

/-- **C1** (corrected).  For tuples in the amended domain — ints in
`[-2^31, 2^31)` with the normalized size 4, float32 bit patterns with a
clear sign bit, chars a single non-NUL byte, varchar values already
wrapped in single quotes and no longer (quotes included) than the
declared size `< 2^16` — deserializing the serialization of `r` under
`s` yields `r` again. -/
theorem C1_roundtrip_amended (r : List Value) (s : List PyAttr)
    (h : recordOkAmended r s = true) :
    ∃ bytes, serialize r s = some bytes ∧ deserialize bytes s = some r := by
  simp only [recordOkAmended, Bool.and_eq_true, decide_eq_true_eq] at h
  obtain ⟨hlen, hall⟩ := h
  obtain ⟨mid, hmid, hdes⟩ := deserializeFields_serializeFields s r hlen hall
  refine ⟨82 :: 67 :: (mid ++ [204]), ?_, ?_⟩
  · simp [serialize, hmid]
  · have h1 : ((82 : Nat) :: 67 :: (mid ++ [204])).take 2 = [82, 67] := rfl
    have h2 : ((82 : Nat) :: 67 :: (mid ++ [204])).getLast? = some 204 := by
      rw [show (82 : Nat) :: 67 :: (mid ++ [204]) = (82 :: 67 :: mid) ++ [204] by simp]
      exact List.getLast?_concat _
    simp only [deserialize]
    rw [if_neg (by simp [h1]), if_neg (by simp [h2])]
    have hd2 := hdes [82, 67] [204]
    simp only [List.length_cons, List.length_nil] at hd2
    rw [show (82 : Nat) :: 67 :: (mid ++ [204]) = [82, 67] ++ (mid ++ [204]) by simp]
    rw [hd2]
    rfl

/-- Witness for C1: a concrete `(int, varchar)` tuple in the amended
domain round-trips. -/
theorem C1_roundtrip_amended_witness :
    recordOkAmended [Value.vint (-5), Value.vstr [39, 65, 39]]
        [⟨[110], dtInt, 4⟩, ⟨[109], dtVarchar, 10⟩] = true ∧
      ∃ bytes,
        serialize [Value.vint (-5), Value.vstr [39, 65, 39]]
            [⟨[110], dtInt, 4⟩, ⟨[109], dtVarchar, 10⟩] = some bytes ∧
        deserialize bytes [⟨[110], dtInt, 4⟩, ⟨[109], dtVarchar, 10⟩] =
          some [Value.vint (-5), Value.vstr [39, 65, 39]] :=
  ⟨by decide, C1_roundtrip_amended _ _ (by decide)⟩

/-- Counterexample to C1 as stated: the tuple `("A",)` matches the schema
`[(n, varchar, 50)]` (length 1 ≤ 50), but the round trip returns the
value wrapped in single quotes, not the value itself. -/
theorem C1_roundtrip_counterexample :
    recordMatches [Value.vstr [65]] [⟨[110], dtVarchar, 50⟩] = true ∧
      serialize [Value.vstr [65]] [⟨[110], dtVarchar, 50⟩] =
        some [82, 67, 1, 0, 65, 204] ∧
      deserialize [82, 67, 1, 0, 65, 204] [⟨[110], dtVarchar, 50⟩] =
        some [Value.vstr [39, 65, 39]] ∧
      ([Value.vstr [39, 65, 39]] : List Value) ≠ [Value.vstr [65]] := by
  decide

theorem serializeFields_truncation :
    ∀ (vs : List Value) (attrs : List PyAttr),
      serializeFields vs attrs =
        serializeFields (vs.take attrs.length) (attrs.take vs.length) := by
  intro vs
  induction vs with
  | nil =>
    intro attrs
    cases attrs <;> simp [serializeFields]
  | cons v vs ih =>
    intro attrs
    cases attrs with
    | nil => simp [serializeFields]
    | cons a t =>
      simp only [serializeFields, List.length_cons, List.take_succ_cons]
      rw [ih t]

/-- **C7** (corrected).  `RecordSerializer.serialize` performs no
field-count check at all: the `zip` silently truncates to the shorter of
record and schema, so a mismatched tuple serializes exactly like its
truncation (extra values are ignored, missing attributes are skipped),
with no `SerializationError`. -/
theorem C7_serialize_truncates (r : List Value) (s : List PyAttr) :
    serialize r s = serialize (r.take s.length) (s.take r.length) := by
  unfold serialize
  rw [← serializeFields_truncation]

/-- Counterexample to C7 as stated: a one-field tuple against a
two-attribute schema serializes successfully (to the serialization of
just the first field) instead of failing. -/
theorem C7_arity_counterexample :
    ([Value.vint 1] : List Value).length ≠
        ([⟨[97], dtInt, 4⟩, ⟨[98], dtInt, 4⟩] : List PyAttr).length ∧
      serialize [Value.vint 1] [⟨[97], dtInt, 4⟩, ⟨[98], dtInt, 4⟩] =
        some [82, 67, 1, 0, 0, 0, 204] := by
  decide

/-! ## C8: Block.add_record -/

theorem writeBytesAt_length (data : List Nat) (start : Nat) (r : List Nat)
    (h : start + r.length ≤ data.length) :
    (writeBytesAt data start r).length = data.length := by
  simp only [writeBytesAt, List.length_append, List.length_take, List.length_drop]
  rw [Nat.min_eq_left (by omega)]
  omega

theorem take_len_eq (data : List Nat) (start : Nat) (h : start ≤ data.length) :
    (data.take start).length = start := by
  rw [List.length_take]
  exact Nat.min_eq_left h

theorem writeBytesAt_get?_lt (data : List Nat) (start : Nat) (r : List Nat) (i : Nat)
    (hstart : start ≤ data.length) (hi : i < start) :
    (writeBytesAt data start r).get? i = data.get? i := by
  unfold writeBytesAt
  rw [List.append_assoc]
  rw [List.get?_append (by rw [take_len_eq data start hstart]; exact hi)]
  exact List.get?_take hi

theorem writeBytesAt_get?_ge (data : List Nat) (start : Nat) (r : List Nat) (i : Nat)
    (hstart : start ≤ data.length) (hge : start + r.length ≤ i) :
    (writeBytesAt data start r).get? i = data.get? i := by
  unfold writeBytesAt
  rw [List.append_assoc]
  rw [List.get?_append_right (by rw [take_len_eq data start hstart]; omega)]
  rw [take_len_eq data start hstart]
  rw [List.get?_append_right (by omega)]
  rw [List.get?_drop]
  congr 1
  omega

theorem writeBytesAt_slice (data : List Nat) (start : Nat) (r : List Nat)
    (h : start + r.length ≤ data.length) :
    ((writeBytesAt data start r).drop start).take r.length = r := by
  unfold writeBytesAt
  rw [List.append_assoc]
  rw [drop_append_len _ _ _ (take_len_eq data start (by omega))]
  exact take_append_len _ _ _ rfl

/-- **C8** (confirmed).  `Block.add_record` fails exactly when
`capacity() < len(r)` (with `capacity() = 4084 - free_space_offset`); on
success the bytes of `r` sit at `free_space_offset` in the data area,
`free_space_offset` grows by `len(r)`, `record_count` by one, and
`page_id` and all data bytes outside the written range are unchanged. -/
theorem C8_addRecord_spec (b : Block) (r : List Nat) (hlen : b.data.length = DATA_SIZE) :
    (b.addRecord r = none ↔ b.capacity < (r.length : Int)) ∧
      ∀ b2, b.addRecord r = some b2 →
        b2.pageId = b.pageId ∧
        b2.recordCount = b.recordCount + 1 ∧
        b2.freeSpaceOffset = b.freeSpaceOffset + r.length ∧
        b2.data.length = DATA_SIZE ∧
        (b2.data.drop b.freeSpaceOffset).take r.length = r ∧
        ∀ i : Nat, i < b.freeSpaceOffset ∨ b.freeSpaceOffset + r.length ≤ i →
          b2.data.get? i = b.data.get? i := by
  have hiff : b.capacity < (r.length : Int) ↔
      b.freeSpaceOffset + r.length > DATA_SIZE := by
    unfold Block.capacity
    omega
  constructor
  · by_cases hc : b.freeSpaceOffset + r.length > DATA_SIZE
    · simp [Block.addRecord, hc, hiff]
    · simp [Block.addRecord, hc, hiff]
  · intro b2 hb2
    rw [Block.addRecord] at hb2
    by_cases hc : b.freeSpaceOffset + r.length > DATA_SIZE
    · rw [if_pos hc] at hb2
      exact absurd hb2 (by simp)
    · rw [if_neg hc] at hb2
      have hfits : b.freeSpaceOffset + r.length ≤ b.data.length := by
        rw [hlen]
        omega
      have hstart : b.freeSpaceOffset ≤ b.data.length := by omega
      simp only [Option.some.injEq] at hb2
      subst hb2
      refine ⟨rfl, rfl, rfl, ?_, ?_, ?_⟩
      · rw [writeBytesAt_length _ _ _ hfits, hlen]
      · exact writeBytesAt_slice _ _ _ hfits
      · intro i hi
        cases hi with
        | inl h1 => exact writeBytesAt_get?_lt _ _ _ _ hstart h1
        | inr h2 => exact writeBytesAt_get?_ge _ _ _ _ hstart h2

/-- Witness for C8 at a fresh block and the record `[1, 2, 3]`. -/
theorem C8_addRecord_spec_witness :
    Block.new.data.length = DATA_SIZE ∧
      ((Block.new.addRecord [1, 2, 3] = none ↔
          Block.new.capacity < (([1, 2, 3] : List Nat).length : Int)) ∧
        ∀ b2, Block.new.addRecord [1, 2, 3] = some b2 →
          b2.pageId = Block.new.pageId ∧
          b2.recordCount = Block.new.recordCount + 1 ∧
          b2.freeSpaceOffset = Block.new.freeSpaceOffset + ([1, 2, 3] : List Nat).length ∧
          b2.data.length = DATA_SIZE ∧
          (b2.data.drop Block.new.freeSpaceOffset).take ([1, 2, 3] : List Nat).length =
            [1, 2, 3] ∧
          ∀ i : Nat,
            i < Block.new.freeSpaceOffset ∨
              Block.new.freeSpaceOffset + ([1, 2, 3] : List Nat).length ≤ i →
            b2.data.get? i = Block.new.data.get? i) :=
  ⟨by simp [Block.new], C8_addRecord_spec Block.new [1, 2, 3] (by simp [Block.new])⟩

/-! ## C3: write_table and PageFull -/

theorem serialize_bigRec :
    serialize [Value.vstr (List.replicate 4100 65)] [⟨[110], dtVarchar, 5000⟩] =
      some (82 :: 67 :: (([4, 16] ++ List.replicate 4100 65) ++ [204])) := by
  have hrep : List.replicate 4100 (65 : Nat) = 65 :: List.replicate 4099 65 := by
    rw [show (4100 : Nat) = 4099 + 1 by norm_num, List.replicate_succ]
  simp only [serialize, serializeFields, serializeField, neq_dtVarchar_dtInt,
    neq_dtVarchar_dtFloat, neq_dtVarchar_dtChar, if_false, eq_self_iff_true, if_true,
    List.length_replicate, hrep, encodeVarChar]
  norm_num
  exact ⟨[4, 16], by decide, rfl⟩

/-- Counterexample to C3 as stated: a record whose serialization is 4105
bytes (varchar of 4100 bytes with declared size 5000) serializes
successfully, but `write_table` surfaces the PageFull `ValueError` from
the retry `add_record` on the fresh block. -/
theorem C3_pagefull_counterexample :
    (serialize [Value.vstr (List.replicate 4100 65)] [⟨[110], dtVarchar, 5000⟩]).isSome =
        true ∧
      writeTable [⟨[110], dtVarchar, 5000⟩] [[Value.vstr (List.replicate 4100 65)]]
          Block.new [Block.new] 1 0 = .error .pageFull := by
  have hser := serialize_bigRec
  have hlen : (82 :: 67 :: (([4, 16] ++ List.replicate 4100 65) ++ [204]) :
      List Nat).length = 4105 := by
    simp only [List.length_cons, List.length_append, List.length_replicate,
      List.length_nil]
  have hadd : Block.new.addRecord
      (82 :: 67 :: (([4, 16] ++ List.replicate 4100 65) ++ [204])) = none := by
    rw [Block.addRecord, if_pos]
    rw [show Block.new.freeSpaceOffset = 0 from rfl, hlen]
    decide
  constructor
  · rw [hser]
    rfl
  · have hloop : writeTableLoop [⟨[110], dtVarchar, 5000⟩]
        [[Value.vstr (List.replicate 4100 65)]] Block.new [Block.new] 0 1 =
        .error .pageFull := by
      simp only [writeTableLoop, hser, hadd]
    rw [writeTable]
    norm_num
    rw [hloop]
    rfl

/-- **C3** (corrected).  `write_table` never surfaces PageFull for a
batch whose records each serialize to at most one data area (4084
bytes): a full block is flushed and a fresh one (with `block_count`
incremented) absorbs the record.  A record serializing to more than 4084
bytes still propagates the PageFull `ValueError` (see the
counterexample), so the claim holds only under that bound. -/
theorem C3_writeTable_ok (schema : List PyAttr) (records : List (List Value))
    (lastBlock : Block) (file : TableFile) (bc rc : Nat)
    (h : ∀ r ∈ records, ∃ bs, serialize r schema = some bs ∧ bs.length ≤ DATA_SIZE) :
    ∃ res, writeTable schema records lastBlock file bc rc = .ok res := by
  suffices hloop : ∀ (rs : List (List Value)) (block : Block) (file : TableFile)
      (page bcc : Nat),
      (∀ r ∈ rs, ∃ bs, serialize r schema = some bs ∧ bs.length ≤ DATA_SIZE) →
      ∃ res, writeTableLoop schema rs block file page bcc = .ok res by
    obtain ⟨res, hres⟩ := hloop records lastBlock file (bc - 1) bc h
    refine ⟨⟨if res.1.recordCount > 0 then setBlock res.2.1 res.2.2.1 res.1 else res.2.1,
      res.2.2.2, rc + records.length⟩, ?_⟩
    rw [writeTable, hres]
    rfl
  intro rs
  induction rs with
  | nil =>
    intro block file page bcc _
    exact ⟨_, rfl⟩
  | cons r rs ih =>
    intro block file page bcc hall
    obtain ⟨bs, hbs, hle⟩ := hall r (by simp)
    have hrest : ∀ x ∈ rs, ∃ b2, serialize x schema = some b2 ∧ b2.length ≤ DATA_SIZE :=
      fun x hx => hall x (by simp [hx])
    cases hadd : block.addRecord bs with
    | some b2 =>
      obtain ⟨res, hres⟩ := ih b2 file page bcc hrest
      exact ⟨res, by simp only [writeTableLoop, hbs, hadd, hres]⟩
    | none =>
      have hfresh : Block.new.addRecord bs =
          some { Block.new with
            data := writeBytesAt Block.new.data Block.new.freeSpaceOffset bs
            freeSpaceOffset := Block.new.freeSpaceOffset + bs.length
            recordCount := Block.new.recordCount + 1 } := by
        rw [Block.addRecord, if_neg]
        intro hcontra
        have h0 : Block.new.freeSpaceOffset = 0 := rfl
        simp only [DATA_SIZE] at hle hcontra
        omega
      obtain ⟨res, hres⟩ := ih
        { Block.new with
          data := writeBytesAt Block.new.data Block.new.freeSpaceOffset bs
          freeSpaceOffset := Block.new.freeSpaceOffset + bs.length
          recordCount := Block.new.recordCount + 1 }
        (setBlock file page block) (page + 1) (bcc + 1) hrest
      exact ⟨res, by simp only [writeTableLoop, hbs, hadd, hfresh, hres]⟩

/-- Witness for C3: a one-record batch appends successfully. -/
theorem C3_writeTable_ok_witness :
    (∀ r ∈ [[Value.vint 1]], ∃ bs,
        serialize r [⟨[110], dtInt, 4⟩] = some bs ∧ bs.length ≤ DATA_SIZE) ∧
      ∃ res, writeTable [⟨[110], dtInt, 4⟩] [[Value.vint 1]] Block.new [Block.new] 1 0 =
        .ok res := by
  have hpre : ∀ r ∈ [[Value.vint 1]], ∃ bs,
      serialize r [⟨[110], dtInt, 4⟩] = some bs ∧ bs.length ≤ DATA_SIZE := by
    intro r hr
    rw [List.mem_singleton] at hr
    subst hr
    exact ⟨[82, 67, 1, 0, 0, 0, 204], rfl, by decide⟩
  exact ⟨hpre, C3_writeTable_ok _ _ _ _ _ _ hpre⟩

/-! ## C2: delete_record on a no-match condition -/

/-- **C2** (code bug).  On a freshly created table (block 0 holding only
the table header, `block_count = 1`, `record_count = 0`), a delete pass
whose condition matches no records does not leave the table unchanged
and return 0: `rewrite_block_num` is still -1 at the final flush, whose
`write_block(path, -1)` does `fd.seek(-4096)` and raises, so
`delete_record` crashes (and `delete(c); delete(c)` crashes on the
second call for any `c`, since the second pass matches nothing). -/
theorem C2_delete_nomatch_negative_seek :
    (writeHeaderBlock ((serializeSchema [⟨[110], dtInt, 4⟩]).getD []) 1 0 1).map
        (fun b0 => deleteRecord [⟨[110], dtInt, 4⟩] (fun _ => false) [b0] 1 0) =
      some (Except.error DelError.negativeSeek) := by
  set_option maxRecDepth 40000 in rfl

/-! ## C4: get_joined_table fetch phase -/

theorem joinFetchAux_get? {α : Type} (conds : List (Option (α → Bool))) :
    ∀ (tables : List (String × List α)) (s j : Nat),
      (joinFetchAux conds s tables).get? j =
        (tables.get? j).map (fun p =>
          getTableDataFiltered p.1 p.2
            (if s + j > 0 then pyGetCond conds (s + j - 1) else none)) := by
  intro tables
  induction tables with
  | nil =>
    intro s j
    simp [joinFetchAux]
  | cons p t ih =>
    obtain ⟨nm, recs⟩ := p
    intro s j
    cases j with
    | zero =>
      simp [joinFetchAux]
    | succ j =>
      simp only [joinFetchAux, List.get?_cons_succ, ih (s + 1) j,
        show s + 1 + j = s + (j + 1) from by omega]

/-- **C4** (corrected).  In `get_joined_table` the per-table conditions
are applied off by one: table 0 is fetched with no condition at all (its
own condition is ignored), and table `i+1` is fetched filtered by
condition `i` — not by its own condition `i+1`. -/
theorem C4_fetch_offByOne {α : Type} (tables : List (String × List α))
    (conds : List (Option (α → Bool))) :
    (∀ nm recs rest, tables = (nm, recs) :: rest →
        (joinFetchRecords tables conds).get? 0 = some recs) ∧
      (∀ (i : Nat) (nm : String) (recs : List α) (c : α → Bool),
        tables.get? (i + 1) = some (nm, recs) →
        pyGetCond conds i = some c →
        nm ≠ "information_schema" →
        (joinFetchRecords tables conds).get? (i + 1) = some (recs.filter c)) := by
  constructor
  · intro nm recs rest htab
    subst htab
    rw [joinFetchRecords, joinFetchAux_get?]
    simp [getTableDataFiltered]
  · intro i nm recs c htab hcond hnm
    rw [joinFetchRecords, joinFetchAux_get?, htab]
    simp only [Option.map_some']
    rw [if_pos (show (0 : Nat) + (i + 1) > 0 from by omega)]
    rw [show (0 : Nat) + (i + 1) - 1 = i from by omega, hcond]
    simp [getTableDataFiltered, hnm]

/-- Witness for C4: concrete two-table fetch with conditions. -/
theorem C4_fetch_offByOne_witness :
    (joinFetchRecords [("a", [(0 : Nat)]), ("b", [0, 1])]
        [some (fun _ => false), some (fun r => decide (r = 1))]).get? 0 = some [0] ∧
      (joinFetchRecords [("a", [(0 : Nat)]), ("b", [0, 1])]
        [some (fun _ => false), some (fun r => decide (r = 1))]).get? 1 =
        some ([0, 1].filter (fun _ => false)) :=
  ⟨(C4_fetch_offByOne [("a", [(0 : Nat)]), ("b", [0, 1])]
      [some (fun _ => false), some (fun r => decide (r = 1))]).1
      "a" [0] [("b", [0, 1])] rfl,
    (C4_fetch_offByOne [("a", [(0 : Nat)]), ("b", [0, 1])]
      [some (fun _ => false), some (fun r => decide (r = 1))]).2
      0 "b" [0, 1] (fun _ => false) rfl rfl (by decide)⟩

/-- Counterexample to C4 as stated: with conditions `[c0, c1]`, the
records contributed by table 0 are not `filter c0` of its records (they
are unfiltered), and table 1 is filtered by `c0` rather than `c1`. -/
theorem C4_fetch_counterexample :
    joinFetchRecords [("a", [(0 : Nat)]), ("b", [0, 1])]
        [some (fun _ => false), some (fun _ => true)] = [[0], []] ∧
      [List.filter (fun _ => false) [(0 : Nat)], List.filter (fun _ => true) [0, 1]] =
        [[], [0, 1]] ∧
      ([[0], []] : List (List Nat)) ≠ [[], [0, 1]] :=
  ⟨rfl, rfl, by decide⟩

/-! ## C5: the int hash-key encoding -/

/-- **C5** (corrected).  The int hash key of `set_index`/`get_index` uses
`int(v).to_bytes()` with all defaults: the digest input is the single
big-endian byte of `v`, defined only for `v ∈ [0, 255]`; outside that
range `to_bytes` raises `OverflowError`.  The key is the sha-256 digest
of that one byte reduced mod `2^32`. -/
theorem C5_hashKeyInt_spec (digest : List Nat → Nat) (v : Int) :
    (0 ≤ v → v < 256 → hashKeyInt digest v = some (digest [v.toNat] % 2 ^ 32)) ∧
      ((v < 0 ∨ 256 ≤ v) → hashKeyInt digest v = none) := by
  constructor
  · intro h1 h2
    simp [hashKeyInt, intToBytesNoArgs, h1, h2]
  · intro h
    have hnot : ¬ (0 ≤ v ∧ v < 256) := by omega
    simp [hashKeyInt, intToBytesNoArgs, hnot]

/-- Witness for C5 at `v = 5` (in range) and `v = -3` (overflow). -/
theorem C5_hashKeyInt_spec_witness :
    hashKeyInt (fun bs => bs.length) 5 = some (1 % 2 ^ 32) ∧
      hashKeyInt (fun bs => bs.length) (-3) = none :=
  ⟨(C5_hashKeyInt_spec (fun bs => bs.length) 5).1 (by norm_num) (by norm_num),
    (C5_hashKeyInt_spec (fun bs => bs.length) (-3)).2 (Or.inl (by norm_num))⟩

/-- Counterexample to C5 as stated: at `v = 1` the code's digest input is
the single byte `[1]`, not the 4-byte big-endian two's-complement
`[0, 0, 0, 1]`, and at `v = -1` (an int32) the key computation raises
instead of hashing at all. -/
theorem C5_digest_input_counterexample :
    intToBytesNoArgs 1 = some [1] ∧ specIntDigestInput 1 = [0, 0, 0, 1] ∧
      intToBytesNoArgs 1 ≠ some (specIntDigestInput 1) ∧
      intToBytesNoArgs (-1) = none := by
  decide

/-! ## C6: get_index soundness -/

theorem getIndexFold_inv (schema : List PyAttr) (column : List Nat)
    (file : TableFile) (value : Value) :
    ∀ (cands : List (Nat × Nat)) (acc result : List (List Value)),
      (∀ r ∈ acc, pyIndex r (findColIdx schema column) = some value) →
      cands.foldlM (getIndexStep schema column file value) acc = .ok result →
      ∀ r ∈ result, pyIndex r (findColIdx schema column) = some value := by
  intro cands
  induction cands with
  | nil =>
    intro acc result hacc hfold
    simp only [List.foldlM_nil] at hfold
    cases hfold
    exact hacc
  | cons c cs ih =>
    intro acc result hacc hfold
    rw [List.foldlM_cons] at hfold
    cases hstep : getIndexStep schema column file value acc c with
    | error e =>
      rw [hstep] at hfold
      exact absurd hfold (by simp [Bind.bind, Except.bind])
    | ok acc2 =>
      rw [hstep] at hfold
      have hfold2 : cs.foldlM (getIndexStep schema column file value) acc2 = .ok result := by
        simpa [Bind.bind, Except.bind] using hfold
      have hacc2 : ∀ r ∈ acc2, pyIndex r (findColIdx schema column) = some value := by
        rw [getIndexStep] at hstep
        cases hread : readRecordAt file schema c.1 c.2 with
        | error e =>
          rw [hread] at hstep
          exact absurd hstep (by simp [Bind.bind, Except.bind])
        | ok record =>
          rw [hread] at hstep
          simp only [Bind.bind, Except.bind] at hstep
          cases hidx : pyIndex record (findColIdx schema column) with
          | none =>
            rw [hidx] at hstep
            exact absurd hstep (by simp)
          | some v =>
            rw [hidx] at hstep
            simp only [pure, Except.pure] at hstep
            by_cases hv : v = value
            · subst hv
              rw [if_pos rfl] at hstep
              simp only [Except.ok.injEq] at hstep
              subst hstep
              intro r hr
              rw [List.mem_append] at hr
              cases hr with
              | inl h1 => exact hacc r h1
              | inr h2 =>
                rw [List.mem_singleton] at h2
                subst h2
                exact hidx
            · rw [if_neg hv] at hstep
              simp only [Except.ok.injEq] at hstep
              subst hstep
              exact hacc
      exact ih acc2 result hacc2 hfold2

/-- **C6** (confirmed).  `get_index` returns `None` whenever the index
file is absent; otherwise every record in its result list has its
indexed column value (`record[attr_count]`, with `attr_count` the
`Condition`-style scan of the schema for the column) exactly equal to
the query value: the collision filter of StorageManager.py:477 admits a
candidate only after re-reading it and comparing. -/
theorem C6_getIndex_spec (cands : List (Nat × Nat)) (schema : List PyAttr)
    (column : List Nat) (file : TableFile) (value : Value) :
    getIndexLookup false cands schema column file value = none ∧
      ∀ result, getIndexLookup true cands schema column file value =
          some (.ok result) →
        ∀ r ∈ result, pyIndex r (findColIdx schema column) = some value := by
  constructor
  · rfl
  · intro result hrun
    simp only [getIndexLookup, if_true, Option.some.injEq] at hrun
    exact getIndexFold_inv schema column file value cands [] result (by simp) hrun

/-- Witness for C6: one candidate location holding the record `(7,)`
under schema `[(n, int, 4)]`, queried with value 7. -/
theorem C6_getIndex_spec_witness :
    getIndexLookup true [(0, 0)] [⟨[110], dtInt, 4⟩] [110]
        [⟨0, 1, 7, [82, 67, 7, 0, 0, 0, 204]⟩] (Value.vint 7) =
      some (.ok [[Value.vint 7]]) ∧
      ∀ r ∈ [[Value.vint 7]],
        pyIndex r (findColIdx [⟨[110], dtInt, 4⟩] [110]) = some (Value.vint 7) :=
  ⟨rfl,
    (C6_getIndex_spec [(0, 0)] [⟨[110], dtInt, 4⟩] [110]
      [⟨0, 1, 7, [82, 67, 7, 0, 0, 0, 204]⟩] (Value.vint 7)).2 [[Value.vint 7]] rfl⟩

/-! ## C9: schema serialization round trip -/

theorem utf8EncodeChar_ascii (c : Nat) (h : c < 128) : utf8EncodeChar c = [c] := by
  rw [utf8EncodeChar, if_pos h]

theorem utf8Encode_ascii (s : List Nat) (h : ∀ c ∈ s, c < 128) : utf8Encode s = s := by
  induction s with
  | nil => rfl
  | cons c r ih =>
    rw [utf8Encode, utf8EncodeChar_ascii c (h c (List.mem_cons_self c r)),
      ih (fun x hx => h x (List.mem_cons_of_mem c hx))]
    rfl

theorem utf8DecodeFuel_ascii (s : List Nat) (h : ∀ c ∈ s, c < 128) :
    utf8DecodeFuel s.length s = some s := by
  induction s with
  | nil => rfl
  | cons b r ih =>
    have hstep : utf8Step b r = some (b, r) := by
      rw [utf8Step.eq_def, if_pos (h b (List.mem_cons_self b r))]
    simp only [List.length_cons, utf8DecodeFuel, hstep,
      ih (fun x hx => h x (List.mem_cons_of_mem b hx))]
    rfl

theorem utf8Decode_ascii (s : List Nat) (h : ∀ c ∈ s, c < 128) :
    utf8Decode s = some s :=
  utf8DecodeFuel_ascii s h

theorem schema_roundtrip_aux :
    ∀ (attrs : List PyAttr),
      attrs.all validAttr = true →
      ∃ bytes, serializeSchema attrs = some bytes ∧
        ∀ fuel, bytes.length ≤ fuel → deserializeSchemaFuel fuel bytes = some attrs := by
  intro attrs
  induction attrs with
  | nil =>
    intro _
    refine ⟨[], rfl, fun fuel _ => ?_⟩
    cases fuel <;> rfl
  | cons a rest ih =>
    obtain ⟨nm, dt, sz⟩ := a
    intro hall
    rw [List.all_cons, Bool.and_eq_true] at hall
    obtain ⟨bytesR, hser, hdes⟩ := ih hall.2
    have hva := hall.1
    rw [validAttr, Bool.and_eq_true, Bool.and_eq_true, decide_eq_true_eq] at hva
    obtain ⟨⟨hname, hascB⟩, hrest⟩ := hva
    have hasc : ∀ c ∈ nm, c < 128 := by
      intro c hc
      exact of_decide_eq_true (List.all_eq_true.mp hascB c hc)
    have hencN : utf8Encode nm = nm := utf8Encode_ascii nm hasc
    have hdecN : utf8Decode nm = some nm := utf8Decode_ascii nm hasc
    simp only [Bool.or_eq_true, Bool.and_eq_true, decide_eq_true_eq] at hrest
    have hdt : dt.length < 2 ^ 16 ∧ sz < 2 ^ 16 ∧
        mkAttribute nm dt sz = some ⟨nm, dt, sz⟩ ∧
        utf8Encode dt = dt ∧ utf8Decode dt = some dt := by
      rcases hrest with (((⟨h1, h2⟩ | ⟨h1, h2⟩) | ⟨h1, h2⟩) | ⟨h1, h2⟩)
      · subst h1
        subst h2
        exact ⟨by decide, by decide, rfl, by decide, by decide⟩
      · subst h1
        subst h2
        exact ⟨by decide, by decide, rfl, by decide, by decide⟩
      · subst h1
        subst h2
        exact ⟨by decide, by decide, rfl, by decide, by decide⟩
      · subst h1
        exact ⟨by decide, h2, rfl, by decide, by decide⟩
    obtain ⟨hdtlen, hszlt, hmk, hencD, hdecD⟩ := hdt
    have hnl := unsigned_roundtrip 2 nm.length hname
    have hdl := unsigned_roundtrip 2 dt.length hdtlen
    have hsl := unsigned_roundtrip 2 sz hszlt
    refine ⟨natBytesLE 2 nm.length ++ nm ++ natBytesLE 2 dt.length ++ dt ++
      natBytesLE 2 sz ++ bytesR, ?_, ?_⟩
    · simp only [serializeSchema, hnl.1, hdl.1, hsl.1, hser, hencN, hencD,
        Option.bind_eq_bind, Option.some_bind]
      rfl
    · intro fuel hfuel
      have hblen : (natBytesLE 2 nm.length ++ nm ++ natBytesLE 2 dt.length ++ dt ++
          natBytesLE 2 sz ++ bytesR).length =
          2 + nm.length + 2 + dt.length + 2 + bytesR.length := by
        simp only [List.length_append, natBytesLE_length]
      cases fuel with
      | zero =>
        exfalso
        rw [hblen] at hfuel
        omega
      | succ f =>
        have hD : natBytesLE 2 nm.length ++ nm ++ natBytesLE 2 dt.length ++ dt ++
            natBytesLE 2 sz ++ bytesR =
            natBytesLE 2 nm.length ++ (nm ++ (natBytesLE 2 dt.length ++ (dt ++
              (natBytesLE 2 sz ++ bytesR)))) := by
          simp [List.append_assoc]
        have hne : natBytesLE 2 nm.length ++ (nm ++ (natBytesLE 2 dt.length ++ (dt ++
            (natBytesLE 2 sz ++ bytesR)))) ≠ [] := by
          intro hcontra
          have := congrArg List.length hcontra
          simp only [List.length_append, natBytesLE_length, List.length_nil] at this
          omega
        have e1 : (natBytesLE 2 nm.length ++ (nm ++ (natBytesLE 2 dt.length ++ (dt ++
            (natBytesLE 2 sz ++ bytesR))))).take 2 = natBytesLE 2 nm.length :=
          take_append_len _ _ _ (natBytesLE_length 2 _)
        have e2 : (natBytesLE 2 nm.length ++ (nm ++ (natBytesLE 2 dt.length ++ (dt ++
            (natBytesLE 2 sz ++ bytesR))))).drop 2 =
            nm ++ (natBytesLE 2 dt.length ++ (dt ++ (natBytesLE 2 sz ++ bytesR))) :=
          drop_append_len _ _ _ (natBytesLE_length 2 _)
        have e3 : (nm ++ (natBytesLE 2 dt.length ++ (dt ++ (natBytesLE 2 sz ++
            bytesR)))).take nm.length = nm :=
          take_append_len _ _ _ rfl
        have e4 : (natBytesLE 2 nm.length ++ (nm ++ (natBytesLE 2 dt.length ++ (dt ++
            (natBytesLE 2 sz ++ bytesR))))).drop (2 + nm.length) =
            natBytesLE 2 dt.length ++ (dt ++ (natBytesLE 2 sz ++ bytesR)) := by
          rw [show natBytesLE 2 nm.length ++ (nm ++ (natBytesLE 2 dt.length ++ (dt ++
            (natBytesLE 2 sz ++ bytesR)))) = (natBytesLE 2 nm.length ++ nm) ++
            (natBytesLE 2 dt.length ++ (dt ++ (natBytesLE 2 sz ++ bytesR))) from by
              simp [List.append_assoc]]
          exact drop_append_len _ _ _ (by simp [natBytesLE_length])
        have e5 : (natBytesLE 2 dt.length ++ (dt ++ (natBytesLE 2 sz ++
            bytesR))).take 2 = natBytesLE 2 dt.length :=
          take_append_len _ _ _ (natBytesLE_length 2 _)
        have e6 : (natBytesLE 2 dt.length ++ (dt ++ (natBytesLE 2 sz ++
            bytesR))).drop 2 = dt ++ (natBytesLE 2 sz ++ bytesR) :=
          drop_append_len _ _ _ (natBytesLE_length 2 _)
        have e7 : (dt ++ (natBytesLE 2 sz ++ bytesR)).take dt.length = dt :=
          take_append_len _ _ _ rfl
        have e8 : (natBytesLE 2 dt.length ++ (dt ++ (natBytesLE 2 sz ++
            bytesR))).drop (2 + dt.length) = natBytesLE 2 sz ++ bytesR := by
          rw [show natBytesLE 2 dt.length ++ (dt ++ (natBytesLE 2 sz ++ bytesR)) =
            (natBytesLE 2 dt.length ++ dt) ++ (natBytesLE 2 sz ++ bytesR) from by
              simp [List.append_assoc]]
          exact drop_append_len _ _ _ (by simp [natBytesLE_length])
        have e9 : (natBytesLE 2 sz ++ bytesR).take 2 = natBytesLE 2 sz :=
          take_append_len _ _ _ (natBytesLE_length 2 _)
        have e10 : (natBytesLE 2 sz ++ bytesR).drop 2 = bytesR :=
          drop_append_len _ _ _ (natBytesLE_length 2 _)
        have hrec : deserializeSchemaFuel f bytesR = some rest := by
          apply hdes
          rw [hblen] at hfuel
          omega
        rw [hD]
        simp only [deserializeSchemaFuel, if_neg hne, e1, e2, e3, e4, e5, e6, e7, e8,
          e9, e10, hnl.2, hdl.2, hsl.2, Int.toNat_natCast, hdecN, hdecD, hmk, hrec,
          Option.bind_eq_bind, Option.some_bind]
        rfl

/-- **C9** (corrected).  `Schema.serialize` writes `len(attr.name)` —
the character count — as the name-length field while storing the utf-8
byte encoding of the name, and `Schema.deserialize` reads that field
back as a byte count, so the round trip as claimed fails for non-ASCII
names (see the counterexample).  Amended: for every schema whose
attributes have a valid dtype (with the `Attribute.__init__` size
normalization), an **ASCII** name of fewer than 2^16 characters, and a
size below 2^16, `Schema.deserialize(Schema.serialize(s))` yields a
schema with the same ordered `(name, dtype, size)` metadata triples as
`s`. -/
theorem C9_schema_roundtrip (attrs : List PyAttr) (h : attrs.all validAttr = true) :
    ∃ bytes, serializeSchema attrs = some bytes ∧
      (deserializeSchema bytes).map getMetadata = some (getMetadata attrs) := by
  obtain ⟨bytes, h1, h2⟩ := schema_roundtrip_aux attrs h
  refine ⟨bytes, h1, ?_⟩
  rw [deserializeSchema, h2 bytes.length le_rfl]
  rfl

/-- Witness for C9 on a concrete two-attribute schema. -/
theorem C9_schema_roundtrip_witness :
    ([⟨[110], dtInt, 4⟩, ⟨[109], dtVarchar, 50⟩] : List PyAttr).all validAttr = true ∧
      ∃ bytes,
        serializeSchema [⟨[110], dtInt, 4⟩, ⟨[109], dtVarchar, 50⟩] = some bytes ∧
        (deserializeSchema bytes).map getMetadata =
          some (getMetadata [⟨[110], dtInt, 4⟩, ⟨[109], dtVarchar, 50⟩]) :=
  ⟨by decide, C9_schema_roundtrip _ (by decide)⟩

/-- Counterexample to C9 as stated: the one-attribute schema whose name
is the single character U+00E9 (utf-8 bytes `[195, 169]`, so its
encoding fits a u16 length) with a valid dtype and size serializes with
name-length field 1 but two name bytes; deserialization slices one byte
`[195]` — a truncated utf-8 sequence — and `decode('utf-8')` raises
UnicodeDecodeError, so the round trip does not return the metadata. -/
theorem C9_schema_roundtrip_counterexample :
    (utf8Encode [233]).length < 2 ^ 16 ∧ (50 : Nat) < 2 ^ 16 ∧
      serializeSchema [⟨[233], dtVarchar, 50⟩] =
        some [1, 0, 195, 169, 7, 0, 118, 97, 114, 99, 104, 97, 114, 50, 0] ∧
      deserializeSchema
          [1, 0, 195, 169, 7, 0, 118, 97, 114, 99, 104, 97, 114, 50, 0] = none ∧
      (deserializeSchema
            [1, 0, 195, 169, 7, 0, 118, 97, 114, 99, 104, 97, 114, 50, 0]).map
          getMetadata ≠ some (getMetadata [⟨[233], dtVarchar, 50⟩]) := by
  decide

/-! ## C10: operand classification -/

theorem all_digit_split (l : PyStr) :
    l.all Char.isDigit =
      (l.all (fun c => c.isDigit || decide (c = '.')) && decide (countDots l = 0)) := by
  induction l with
  | nil => rfl
  | cons c r ih =>
    by_cases hd : c = '.'
    · subst hd
      have h0 : Char.isDigit '.' = false := by decide
      have hcnt : decide (countDots r + 1 = 0) = false := decide_eq_false (by omega)
      simp [countDots, h0, hcnt]
    · have hdec : decide (c = '.') = false := by simp [hd]
      simp [countDots, hd, hdec, ih, Bool.and_assoc]

theorem replaceFirstDot_all_digit (l : PyStr) :
    (pyReplaceFirstDot l).all Char.isDigit =
      (l.all (fun c => c.isDigit || decide (c = '.')) && decide (countDots l ≤ 1)) := by
  induction l with
  | nil => rfl
  | cons c r ih =>
    by_cases hd : c = '.'
    · subst hd
      rw [show pyReplaceFirstDot ('.' :: r) = r from by simp [pyReplaceFirstDot]]
      rw [all_digit_split r]
      have h0 : Char.isDigit '.' = false := by decide
      have hq : decide (countDots r + 1 ≤ 1) = decide (countDots r = 0) := by
        rw [decide_eq_decide]
        omega
      simp [countDots, h0, hq]
    · rw [show pyReplaceFirstDot (c :: r) = c :: pyReplaceFirstDot r from by
        simp [pyReplaceFirstDot, hd]]
      have hdec : decide (c = '.') = false := by simp [hd]
      simp [countDots, hd, hdec, ih, Bool.and_assoc]

theorem ascii_digit_replace_eq_numeric (s : PyStr) :
    ((!(pyReplaceFirstDot s).isEmpty) && (pyReplaceFirstDot s).all Char.isDigit) =
      numericSurface s := by
  cases s with
  | nil => rfl
  | cons c r =>
    by_cases hd : c = '.'
    · subst hd
      rw [show pyReplaceFirstDot ('.' :: r) = r from by simp [pyReplaceFirstDot]]
      cases r with
      | nil => rfl
      | cons x xs =>
        have h0 : Char.isDigit '.' = false := by decide
        by_cases hx : x = '.'
        · subst hx
          have hcnt : decide (countDots xs + 1 + 1 ≤ 1) = false :=
            decide_eq_false (by omega)
          simp [numericSurface, countDots, h0, hcnt]
        · have hdecx : decide (x = '.') = false := by simp [hx]
          have hq : decide (countDots xs + 1 ≤ 1) = decide (countDots xs = 0) := by
            rw [decide_eq_decide]
            omega
          cases hdig : Char.isDigit x
          · simp [numericSurface, countDots, h0, hx, hdig]
          · simp [numericSurface, countDots, h0, hx, hdig, hq, all_digit_split xs]
    · rw [show pyReplaceFirstDot (c :: r) = c :: pyReplaceFirstDot r from by
        simp [pyReplaceFirstDot, hd]]
      cases hdig : Char.isDigit c
      · simp [numericSurface, countDots, hd, hdig]
      · simp [numericSurface, countDots, hd, hdig, replaceFirstDot_all_digit r]

theorem replaceFirstDot_subset (s : PyStr) : ∀ c ∈ pyReplaceFirstDot s, c ∈ s := by
  induction s with
  | nil =>
    intro c hc
    simp [pyReplaceFirstDot] at hc
  | cons a r ih =>
    intro c hc
    by_cases ha : a = '.'
    · rw [show pyReplaceFirstDot (a :: r) = r from by simp [pyReplaceFirstDot, ha]] at hc
      exact List.mem_cons_of_mem a hc
    · rw [show pyReplaceFirstDot (a :: r) = a :: pyReplaceFirstDot r from by
        simp [pyReplaceFirstDot, ha]] at hc
      rcases List.mem_cons.mp hc with h | h
      · exact h ▸ List.mem_cons_self a r
      · exact List.mem_cons_of_mem a (ih c h)

theorem pyIsDigitChar_ascii (c : Char) (h : c.toNat < 128) :
    pyIsDigitChar c = c.isDigit := by
  rw [pyIsDigitChar,
    decide_eq_false (show ¬ (1632 ≤ c.toNat ∧ c.toNat ≤ 1641) from by omega),
    decide_eq_false
      (show ¬ (c.toNat = 185 ∨ c.toNat = 178 ∨ c.toNat = 179) from by omega)]
  simp

theorem all_pyIsDigitChar_ascii (l : PyStr) (h : ∀ c ∈ l, c.toNat < 128) :
    l.all pyIsDigitChar = l.all Char.isDigit := by
  induction l with
  | nil => rfl
  | cons a r ih =>
    rw [List.all_cons, List.all_cons,
      pyIsDigitChar_ascii a (h a (List.mem_cons_self a r)),
      ih (fun c hc => h c (List.mem_cons_of_mem a hc))]

theorem isDigitStr_replaceFirstDot (s : PyStr) (h : ∀ c ∈ s, c.toNat < 128) :
    pyIsDigitStr (pyReplaceFirstDot s) = numericSurface s := by
  rw [pyIsDigitStr,
    all_pyIsDigitChar_ascii _ (fun c hc => h c (replaceFirstDot_subset s c hc))]
  exact ascii_digit_replace_eq_numeric s

/-- **C10** (corrected).  The claimed classification holds on operands
of ASCII characters: a string of digits with at most one dot (and at
least one digit — `isdigit` is false on the empty string, so `""` and
`"."` fall through to the attribute case) is a numeric constant, float
when it contains a dot, else int with its decimal value; a string that
starts and ends with a single quote is a varchar constant with the
quotes stripped; every other ASCII operand is an attribute reference.
As stated over all operands the claim is false, because Python
`isdigit` also accepts non-ASCII Unicode digits: an Arabic-Indic digit
operand is classified as an int constant rather than an attribute
reference, and a superscript-digit operand passes the digit gate but
makes `int()` raise ValueError, so classification is not even total
(see the counterexample). -/
theorem C10_classify_spec (s : PyStr) (hascii : ∀ c ∈ s, c.toNat < 128) :
    (numericSurface s = true →
      classifyOperand s =
        some (if s.contains '.' then .floatConst s else .intConst (decimalVal s))) ∧
      (numericSurface s = false →
        s.head? = some quoteChar → s.getLast? = some quoteChar →
        classifyOperand s = some (.varcharConst (pyStripQuotes s))) ∧
      (numericSurface s = false →
        ¬ (s.head? = some quoteChar ∧ s.getLast? = some quoteChar) →
        classifyOperand s = some (.attrRef s)) := by
  have hP := isDigitStr_replaceFirstDot s hascii
  refine ⟨?_, ?_, ?_⟩
  · intro h
    have hns := h
    rw [numericSurface, Bool.and_eq_true, Bool.and_eq_true] at hns
    obtain ⟨⟨hany, hall⟩, hcnt⟩ := hns
    have hmem : ∀ c ∈ s, c.isDigit = true ∨ c = '.' := by
      intro c hc
      have hx := List.all_eq_true.mp hall c hc
      rw [Bool.or_eq_true] at hx
      rcases hx with h1 | h1
      · exact Or.inl h1
      · exact Or.inr (of_decide_eq_true h1)
    have hdigsome : ∀ c : Char, c.isDigit = true → (pyDecimalDigit c).isSome = true := by
      intro c hc
      rw [pyDecimalDigit, if_pos hc]
      rfl
    rw [classifyOperand,
      if_pos (show pyIsDigitStr (pyReplaceFirstDot s) = true from by rw [hP, h])]
    cases hdot : List.contains s '.' with
    | true =>
      have hfok : pyFloatParseOk s = true := by
        rw [pyFloatParseOk]
        simp only [List.all_eq_true]
        intro c hc
        rcases hmem c hc with h1 | h1
        · rw [hdigsome c h1, Bool.or_true]
        · subst h1
          decide
      simp [hfok]
    | false =>
      have hdots : ∀ c ∈ s, c.isDigit = true := by
        intro c hc
        rcases hmem c hc with h1 | h1
        · exact h1
        · exfalso
          subst h1
          have hmemc : List.contains s '.' = true := List.elem_eq_true_of_mem hc
          rw [hdot] at hmemc
          exact Bool.false_ne_true hmemc
      have hne : s.isEmpty = false := by
        cases s with
        | nil => exact absurd hany (by decide)
        | cons a r => rfl
      have hip : pyIntParse s = some (decimalVal s) := by
        rw [pyIntParse, if_neg (show ¬ s.isEmpty = true from by rw [hne]; simp),
          if_pos (show s.all (fun c => (pyDecimalDigit c).isSome) = true from by
            simp only [List.all_eq_true]
            intro c hc
            exact hdigsome c (hdots c hc))]
      simp [hip]
  · intro h hh hl
    rw [classifyOperand, if_neg (show ¬ pyIsDigitStr (pyReplaceFirstDot s) = true from by
      rw [hP, h]; simp), if_pos ⟨hh, hl⟩]
  · intro h hnq
    rw [classifyOperand, if_neg (show ¬ pyIsDigitStr (pyReplaceFirstDot s) = true from by
      rw [hP, h]; simp), if_neg hnq]

/-- Witness for C10: a digit string, a quoted string and a bare
identifier, each ASCII, each classified. -/
theorem C10_classify_spec_witness :
    classifyOperand "12".data =
        some (if ("12".data).contains '.' then ClassifiedOperand.floatConst "12".data
          else ClassifiedOperand.intConst (decimalVal "12".data)) ∧
      classifyOperand [quoteChar, 'a', quoteChar] =
        some (ClassifiedOperand.varcharConst (pyStripQuotes [quoteChar, 'a', quoteChar])) ∧
      classifyOperand "x1".data = some (ClassifiedOperand.attrRef "x1".data) :=
  ⟨(C10_classify_spec "12".data (by decide)).1 (by decide),
    (C10_classify_spec [quoteChar, 'a', quoteChar] (by decide)).2.1 (by decide)
      (by decide) (by decide),
    (C10_classify_spec "x1".data (by decide)).2.2 (by decide) (by decide)⟩

/-- Counterexample to C10 as stated: the one-character operand U+0662
(Arabic-Indic two) is not ASCII digits-and-dots and not quoted, yet
Python `isdigit` accepts it and `int()` parses it, so it is classified
as the int constant 2 instead of an attribute reference; and the
one-character operand U+00B2 (superscript two) passes the `isdigit`
gate but `int()` raises ValueError on it, so classification is not
total. -/
theorem C10_classify_counterexample :
    numericSurface [Char.ofNat 1634] = false ∧
      ¬ ([Char.ofNat 1634].head? = some quoteChar ∧
          [Char.ofNat 1634].getLast? = some quoteChar) ∧
      classifyOperand [Char.ofNat 1634] = some (ClassifiedOperand.intConst 2) ∧
      classifyOperand [Char.ofNat 1634] ≠
        some (ClassifiedOperand.attrRef [Char.ofNat 1634]) ∧
      classifyOperand [Char.ofNat 178] = none := by
  decide

end StorageSpec
